import Mathlib

/-!
Verification of the `mysqldb-wrapper` repository (`db.py`) against its
natural-language specification.

The Python module keeps a per-thread pool of database connections
(`db_connection_pool`, `db_connection_activity`, guarded by
`db_connection_pool_lock`) and offers query helpers (`execute`, `fetch_one`,
`fetch_all`, `fetch_n`, `yield_rows`, `yield_values`, `yield_objects`,
`fetch_value`, `fetch_values`), a row-to-object adapter (`dict2obj`) and a
shutdown function (`close_connections`).

The shallow embedding below models:
  * the pool state (connection map, activity map, set of closed connection
    ids, and whether the pool lock is held) as `PoolState`;
  * the environment a `get_connection` call observes (current thread, clock,
    configured timeout, which threads are alive, which connections answer a
    ping, the supply of new connections `MySQLdb.connect` would produce, and
    which `close()` calls raise) as `Env`;
  * `get_connection` faithfully: lock acquire, the eviction sweep over a
    snapshot of the activity map, the cached-connection ping/replace loop,
    new-connection creation, the activity-timestamp update, and the fact that
    the lock release statement is only reached on the normal path (the
    `try` block ends in `finally: pass`, so errors skip the release);
  * `close_connections` faithfully: it closes every pooled connection and
    does not touch the maps;
  * the query helpers as functions of a cursor source, the configured
    cursor class and the statement outcome, recording whether the local
    cursor was closed and which cursor class was requested;
  * `dict2obj` by structural recursion on a value tree.

Thread identities and connection identities are `Nat`; timestamps are `Int`.
Python dictionaries are association lists with insertion-order semantics
(`alUpdate` replaces in place or appends, `alErase` deletes a key), which is
exactly the behaviour of the Python 2 `dict` the code uses, where
`.items()` yields a snapshot list so deleting during the sweep is safe.
-/

namespace MySQLdbWrapper

/-! ## Association lists (Python dict operations) -/

/-- `d[k]` lookup returning `none` when the key is absent. -/
def alLookup {α : Type} (k : Nat) : List (Nat × α) → Option α
  | [] => none
  | p :: rest => if p.1 = k then some p.2 else alLookup k rest

/-- `d[k] = v`: replace in place when the key exists, append otherwise
(Python dict insertion-order semantics). -/
def alUpdate {α : Type} (k : Nat) (v : α) : List (Nat × α) → List (Nat × α)
  | [] => [(k, v)]
  | p :: rest => if p.1 = k then (k, v) :: rest else p :: alUpdate k v rest

/-- `del d[k]`: remove every binding of `k`. -/
def alErase {α : Type} (k : Nat) : List (Nat × α) → List (Nat × α)
  | [] => []
  | p :: rest => if p.1 = k then alErase k rest else p :: alErase k rest

/-- The keys of an association list, in order. -/
def alKeys {α : Type} (l : List (Nat × α)) : List Nat := l.map (fun p => p.1)

/-! ## The connection pool (`db.py` lines 22-103 and 436-444) -/

/-- Errors that can escape the pool code: `KeyError` from
`db_connection_pool[th]`, an exception from `Connection.close()`, an
exception from `MySQLdb.connect(...)`, and `sys.exit(1)` when `connect`
returns a falsy value. -/
inductive DbError where
  | keyError : DbError
  | closeError (c : Nat) : DbError
  | connectError : DbError
  | systemExit : DbError
deriving DecidableEq

/-- The module-level mutable state: `db_connection_pool` (thread id to
connection id), `db_connection_activity` (thread id to last-activity
timestamp), the set of connection ids whose `close()` has been called, and
whether `db_connection_pool_lock` is held. -/
structure PoolState where
  pool : List (Nat × Nat)
  activity : List (Nat × Int)
  closed : List Nat
  lockHeld : Bool
deriving DecidableEq

/-- What one `get_connection` call observes of the outside world:
`threading.currentThread()`, `time()`, the configured
`db_connection_timeout`, which threads `isAlive()`, which connection ids
answer `ping()` without raising, the connection ids successive
`MySQLdb.connect(**db_connection_kwargs)` calls would return (empty means
`connect` raises), whether `connect` returns a falsy value (triggering
`sys.exit(1)`), and which connection ids raise from `close()`. -/
structure Env where
  currentThread : Nat
  now : Int
  timeout : Int
  alive : List Nat
  pingOk : List Nat
  freshConns : List Nat
  connectNone : Bool
  closeFails : List Nat
deriving DecidableEq

/-- `db_connection_pool[th].close(); del db_connection_pool[th];
del db_connection_activity[th]` — the eviction body shared by the
dead-thread and idle branches of the sweep.  On a `close()` failure the
exception escapes before the two `del` statements run. -/
def evictThread (env : Env) (st : PoolState) (th : Nat) :
    Except (DbError × PoolState) PoolState :=
  match alLookup th st.pool with
  | none => .error (.keyError, st)
  | some c =>
    if c ∈ env.closeFails then .error (.closeError c, st)
    else .ok { st with closed := c :: st.closed,
                       pool := alErase th st.pool,
                       activity := alErase th st.activity }

/-- One iteration of the sweep loop body of `get_connection`: evict when the
owning thread is dead, else evict when `thtime < now - db_connection_timeout`. -/
def sweepEntry (env : Env) (st : PoolState) (th : Nat) (thtime : Int) :
    Except (DbError × PoolState) PoolState :=
  if th ∈ env.alive then
    if thtime < env.now - env.timeout then evictThread env st th
    else .ok st
  else evictThread env st th

/-- The eviction sweep: iterate over a snapshot of
`db_connection_activity.items()` (Python 2 `.items()` returns a list, so the
deletions inside the loop are safe), left to right. -/
def sweep (env : Env) : List (Nat × Int) → PoolState →
    Except (DbError × PoolState) PoolState
  | [], st => .ok st
  | (th, t) :: rest, st =>
    match sweepEntry env st th t with
    | .error e => .error e
    | .ok st2 => sweep env rest st2

/-- The `while db_connection:` loop of `get_connection`: ping the current
candidate; on success break and return it; on `OperationalError` create a
replacement (`sys.exit(1)` if falsy), install it under the calling thread,
and loop — which pings the replacement next.  The first list argument is
the supply of connections `MySQLdb.connect` would produce. -/
def pingLoop (env : Env) (ct : Nat) : List Nat → Nat → PoolState →
    Except (DbError × PoolState) (PoolState × Nat)
  | fresh, conn, st =>
    if conn ∈ env.pingOk then .ok (st, conn)
    else if env.connectNone then .error (.systemExit, st)
    else
      match fresh with
      | [] => .error (.connectError, st)
      | c :: rest => pingLoop env ct rest c { st with pool := alUpdate ct c st.pool }

/-- Outcome of a `get_connection` call: blocked on the pool lock, an escaped
exception together with the state it leaves behind, or a normal return of a
connection. -/
inductive GCResult where
  | blocked : GCResult
  | err (e : DbError) (s : PoolState) : GCResult
  | ok (s : PoolState) (conn : Nat) : GCResult
deriving DecidableEq

/-- `get_connection` (`db.py` lines 32-103).  The lock is acquired first;
the body runs inside `try: ... finally: pass`, and the
`db_connection_pool_lock.release()` statement sits after the `try` block, so
it executes only when the body completes normally: every error propagates
with the lock still held. -/
def get_connection (env : Env) (s : PoolState) : GCResult :=
  if s.lockHeld then .blocked
  else
    match sweep env s.activity { s with lockHeld := true } with
    | .error (e, st') => .err e st'
    | .ok st1 =>
      match alLookup env.currentThread st1.pool with
      | some conn =>
        match pingLoop env env.currentThread env.freshConns conn st1 with
        | .error (e, st') => .err e st'
        | .ok (st2, conn') =>
          .ok { st2 with activity := alUpdate env.currentThread env.now st2.activity,
                         lockHeld := false } conn'
      | none =>
        if env.connectNone then .err .systemExit st1
        else
          match env.freshConns with
          | [] => .err .connectError st1
          | c :: _ =>
            .ok { st1 with pool := alUpdate env.currentThread c st1.pool,
                           activity := alUpdate env.currentThread env.now st1.activity,
                           lockHeld := false } c

/-- The loop body of `close_connections`: close each pooled connection in
pool order; a failing `close()` escapes with the remaining connections
unclosed.  No map entry is ever removed. -/
def closeList (env : Env) : List (Nat × Nat) → PoolState →
    Except (DbError × PoolState) PoolState
  | [], st => .ok st
  | (_, c) :: rest, st =>
    if c ∈ env.closeFails then .error (.closeError c, st)
    else closeList env rest { st with closed := c :: st.closed }

/-- `close_connections` (`db.py` lines 437-444): iterate over
`db_connection_pool.items()` and call `close()` on every connection.  The
liveness of the owning thread is only consulted for a debug warning; no
entry is deleted and the lock is not taken. -/
def close_connections (env : Env) (s : PoolState) :
    Except (DbError × PoolState) PoolState :=
  closeList env s.pool s

/-- The pool invariant: a thread identity has a connection entry exactly when
it has an activity entry. -/
def poolInv (s : PoolState) : Prop :=
  ∀ k, (alLookup k s.pool).isSome = (alLookup k s.activity).isSome

instance (s : PoolState) : Decidable (poolInv s) := by
  unfold poolInv
  have h : (∀ k, (alLookup k s.pool).isSome = (alLookup k s.activity).isSome) ↔
      (∀ k ∈ alKeys s.pool ++ alKeys s.activity,
        (alLookup k s.pool).isSome = (alLookup k s.activity).isSome) := by
    constructor
    · intro h k _
      exact h k
    · intro h k
      have hnone : ∀ {β : Type} (l : List (Nat × β)), k ∉ alKeys l →
          alLookup k l = none := by
        intro β l hk
        induction l with
        | nil => rfl
        | cons p rest ih =>
          simp only [alKeys, List.map_cons, List.mem_cons, not_or] at hk
          simp only [alLookup]
          rw [if_neg (fun hh => hk.1 hh.symm)]
          exact ih (by simpa [alKeys] using hk.2)
      by_cases hp : k ∈ alKeys s.pool
      · exact h k (List.mem_append.2 (Or.inl hp))
      · by_cases ha : k ∈ alKeys s.activity
        · exact h k (List.mem_append.2 (Or.inr ha))
        · rw [hnone s.pool hp, hnone s.activity ha]
          rfl
  exact decidable_of_iff _ h.symm

/-- Whether the sweep condition of `get_connection` holds for an entry. -/
def evictable (env : Env) (th : Nat) (t : Int) : Prop :=
  th ∉ env.alive ∨ t < env.now - env.timeout

instance (env : Env) (th : Nat) (t : Int) : Decidable (evictable env th t) := by
  unfold evictable
  infer_instance

/-! ## Query helpers (`db.py` lines 106-433)

Each helper resolves a cursor (from an explicit `connection=` argument, an
explicit `cursor=` argument, or the pooled connection), executes the
statement, shapes the result, and closes the cursor when — and only when —
the helper created it and the control flow reaches the close statement.
None of the helpers has a `try`/`finally`, so an exception raised by
`cursor.execute` or during row processing skips the `local_cursor.close()`
call.  A `StmtEnv` describes what the database does for the one statement a
helper runs: whether `execute` raises, the row count `execute` returns, and
the raw result rows `fetchone` will produce in order. -/

/-- A MySQLdb cursor class: the client default (rows are tuples) or
`MySQLdb.cursors.DictCursor` (rows are name-to-value dictionaries).
The module configuration `db_cursor_class` defaults to `DictCursor`. -/
inductive CursorClass where
  | defaultClass : CursorClass
  | dictClass : CursorClass
deriving DecidableEq

/-- The module-level configuration read by the helpers. -/
structure DbConfig where
  db_cursor_class : CursorClass
deriving DecidableEq

/-- Where a helper gets its cursor: `connection=` keyword argument (a fresh
cursor is created from it, locally owned), `cursor=` keyword argument (the
caller's cursor, with whatever class the caller chose, not locally owned),
or the pooled connection (fresh cursor, locally owned). -/
inductive CursorSource where
  | fromConnection : CursorSource
  | fromCursor (cls : CursorClass) : CursorSource
  | fromPool : CursorSource
deriving DecidableEq

/-- `local_cursor` is set exactly when the cursor did not come in through the
`cursor=` keyword argument. -/
def localSrc : CursorSource → Bool
  | .fromCursor _ => false
  | _ => true

/-- A shaped result row: a tuple (default cursor class) or a column-name
dictionary (`DictCursor`). -/
inductive Row where
  | positional (vals : List Nat) : Row
  | named (entries : List (String × Nat)) : Row
deriving DecidableEq

/-- How a cursor class presents one raw row of (column name, value) pairs. -/
def shapeRow : CursorClass → List (String × Nat) → Row
  | .defaultClass, r => .positional (r.map (fun p => p.2))
  | .dictClass, r => .named r

/-- The database's behaviour for one statement execution: whether
`cursor.execute` raises, the count it returns, and the raw rows `fetchone`
yields in order (after they run out, `fetchone` returns `None`). -/
structure StmtEnv where
  execFails : Bool
  count : Nat
  rows : List (List (String × Nat))
deriving DecidableEq

deriving instance DecidableEq for Except

/-- What one helper call did: the value it returned or the error it raised,
whether it closed the cursor it locally owned, and the cursor class it
requested when creating a local cursor (`none` when the cursor was
borrowed via `cursor=`). -/
structure HelperOut (α : Type) where
  result : Except Unit α
  cursorClosed : Bool
  localClassUsed : Option CursorClass
deriving DecidableEq

/-- The class of the cursor a helper actually operates on: the borrowed
cursor keeps its own class, a locally created one gets the class the helper
requested. -/
def usedClass (localCls : CursorClass) : CursorSource → CursorClass
  | .fromCursor cls => cls
  | _ => localCls

/-- The cursor class passed to `connection.cursor(...)` when the helper
creates its own cursor. -/
def localClassReq (localCls : CursorClass) (src : CursorSource) :
    Option CursorClass :=
  if localSrc src then some localCls else none

/-- `for i in range(count): row = cursor.fetchone()`: fetch `k` rows,
shaped; `fetchone` returns `None` once the rows run out. -/
def fetchLoop (cls : CursorClass) : Nat → List (List (String × Nat)) →
    List (Option Row)
  | 0, _ => []
  | Nat.succ k, [] => none :: fetchLoop cls k []
  | Nat.succ k, r :: rest => some (shapeRow cls r) :: fetchLoop cls k rest

/-- `execute` (`db.py` lines 107-131): run the statement, return the count;
the local cursor (created with `cursorclass=db_cursor_class`) is closed only
when execution succeeds. -/
def execute (cfg : DbConfig) (src : CursorSource) (env : StmtEnv) :
    HelperOut Nat :=
  { result := if env.execFails then .error () else .ok env.count,
    cursorClosed := if env.execFails then false else localSrc src,
    localClassUsed := localClassReq cfg.db_cursor_class src }

/-- `fetch_one` (`db.py` lines 135-162): run the statement, `fetchone()`
once (giving `None` when there are no rows). -/
def fetch_one (cfg : DbConfig) (src : CursorSource) (env : StmtEnv) :
    HelperOut (Option Row) :=
  { result :=
      if env.execFails then .error ()
      else match env.rows with
      | [] => .ok none
      | r :: _ => .ok (some (shapeRow (usedClass cfg.db_cursor_class src) r)),
    cursorClosed := if env.execFails then false else localSrc src,
    localClassUsed := localClassReq cfg.db_cursor_class src }

/-- `fetch_all` (`db.py` lines 166-197): run the statement, fetch `count`
rows into a list. -/
def fetch_all (cfg : DbConfig) (src : CursorSource) (env : StmtEnv) :
    HelperOut (List (Option Row)) :=
  { result :=
      if env.execFails then .error ()
      else .ok (fetchLoop (usedClass cfg.db_cursor_class src) env.count env.rows),
    cursorClosed := if env.execFails then false else localSrc src,
    localClassUsed := localClassReq cfg.db_cursor_class src }

/-- `yield_rows` (`db.py` lines 201-229), modelled as the list of rows the
fully-consumed generator yields. -/
def yield_rows (cfg : DbConfig) (src : CursorSource) (env : StmtEnv) :
    HelperOut (List (Option Row)) :=
  { result :=
      if env.execFails then .error ()
      else .ok (fetchLoop (usedClass cfg.db_cursor_class src) env.count env.rows),
    cursorClosed := if env.execFails then false else localSrc src,
    localClassUsed := localClassReq cfg.db_cursor_class src }

/-- `fetch_n` (`db.py` lines 323-356): cap the count at `n`
(`if count > n: count = n`) before the fetch loop. -/
def fetch_n (cfg : DbConfig) (src : CursorSource) (env : StmtEnv) (n : Nat) :
    HelperOut (List (Option Row)) :=
  { result :=
      if env.execFails then .error ()
      else .ok (fetchLoop (usedClass cfg.db_cursor_class src)
        (if env.count > n then n else env.count) env.rows),
    cursorClosed := if env.execFails then false else localSrc src,
    localClassUsed := localClassReq cfg.db_cursor_class src }

/-- A value produced by the scalar-extracting helpers: a bare column value
(when `len(row) == 1`), or the whole row. -/
inductive Value where
  | scalar (n : Nat) : Value
  | whole (r : Row) : Value
deriving DecidableEq

/-- `if len(row) == 1: value = row[0] else: value = row`.  On a one-key
dictionary row, `row[0]` raises `KeyError` (the integer `0` is not a column
name), which the helpers do not catch. -/
def valueOfRow : Row → Except Unit Value
  | .positional [v] => .ok (.scalar v)
  | .positional vs => .ok (.whole (.positional vs))
  | .named [_] => .error ()
  | .named es => .ok (.whole (.named es))

/-- The fetch-and-extract loop of `fetch_values`/`yield_values`: fetch
`count` rows, extracting a value from each; once the rows run out,
`fetchone` returns `None` and `len(None)` raises `TypeError`. -/
def valuesLoop (cls : CursorClass) : Nat → List (List (String × Nat)) →
    Except Unit (List Value)
  | 0, _ => .ok []
  | Nat.succ _, [] => .error ()
  | Nat.succ k, r :: rest =>
    match valueOfRow (shapeRow cls r) with
    | .error _ => .error ()
    | .ok v =>
      match valuesLoop cls k rest with
      | .error _ => .error ()
      | .ok vs => .ok (v :: vs)

/-- `fetch_value` (`db.py` lines 360-394): the local cursor is created with
plain `.cursor()` — the client default class, not `db_cursor_class`.  Zero
reported rows give `None`; otherwise one row is fetched and the
single/multi-column rule applied. -/
def fetch_value (_cfg : DbConfig) (src : CursorSource) (env : StmtEnv) :
    HelperOut (Option Value) :=
  { result :=
      if env.execFails then .error ()
      else if env.count = 0 then .ok none
      else match env.rows with
      | [] => .error ()
      | r :: _ =>
        match valueOfRow (shapeRow (usedClass .defaultClass src) r) with
        | .error _ => .error ()
        | .ok v => .ok (some v),
    cursorClosed :=
      if env.execFails then false
      else if env.count = 0 then localSrc src
      else match env.rows with
      | [] => false
      | r :: _ =>
        match valueOfRow (shapeRow (usedClass .defaultClass src) r) with
        | .error _ => false
        | .ok _ => localSrc src,
    localClassUsed := localClassReq .defaultClass src }

/-- `fetch_values` (`db.py` lines 398-433): like `fetch_value` the local
cursor is created with plain `.cursor()`; all `count` rows are fetched and
the single/multi-column rule applied to each. -/
def fetch_values (_cfg : DbConfig) (src : CursorSource) (env : StmtEnv) :
    HelperOut (List Value) :=
  { result :=
      if env.execFails then .error ()
      else match valuesLoop (usedClass .defaultClass src) env.count env.rows with
      | .error _ => .error ()
      | .ok vs => .ok vs,
    cursorClosed :=
      if env.execFails then false
      else match valuesLoop (usedClass .defaultClass src) env.count env.rows with
      | .error _ => false
      | .ok _ => localSrc src,
    localClassUsed := localClassReq .defaultClass src }

/-- `yield_values` (`db.py` lines 233-265), modelled as the list the
fully-consumed generator yields; the local cursor is created with plain
`.cursor()`. -/
def yield_values (_cfg : DbConfig) (src : CursorSource) (env : StmtEnv) :
    HelperOut (List Value) :=
  { result :=
      if env.execFails then .error ()
      else match valuesLoop (usedClass .defaultClass src) env.count env.rows with
      | .error _ => .error ()
      | .ok vs => .ok vs,
    cursorClosed :=
      if env.execFails then false
      else match valuesLoop (usedClass .defaultClass src) env.count env.rows with
      | .error _ => false
      | .ok _ => localSrc src,
    localClassUsed := localClassReq .defaultClass src }

/-! ## The row/object adapter `dict2obj` (`db.py` lines 268-287) -/

/-- The collection kinds `dict2obj` recognises and rebuilds
(`seqs = tuple, list, set, frozenset`). -/
inductive CollKind where
  | tupleKind : CollKind
  | listKind : CollKind
  | setKind : CollKind
  | frozensetKind : CollKind
deriving DecidableEq

/-- A Python value as far as `dict2obj` can observe it: an opaque scalar, a
dictionary, an attribute object (the output of `dict2obj`), or one of the
four recognised collection kinds. -/
inductive Val where
  | atom (n : Nat) : Val
  | vdict (entries : List (String × Val)) : Val
  | vobj (entries : List (String × Val)) : Val
  | vcoll (kind : CollKind) (elems : List Val) : Val

mutual

/-- Convert each dictionary entry of `dict2obj`'s argument: the loop body
`setattr(top, k, ...)` for every `(k, v)` in `d.items()`. -/
def convEntries : List (String × Val) → List (String × Val)
  | [] => []
  | (k, v) :: rest => (k, convTop v) :: convEntries rest

/-- Convert one attribute value: a nested dictionary becomes a nested
object, a recognised collection is rebuilt with its dictionary elements
converted, anything else is stored unchanged. -/
def convTop : Val → Val
  | .atom n => .atom n
  | .vdict es => .vobj (convEntries es)
  | .vobj es => .vobj es
  | .vcoll kind vs => .vcoll kind (convElems vs)

/-- `type(v)(dict2obj(sj) if isinstance(sj, dict) else sj for sj in v)`:
only elements that are themselves dictionaries are converted; all other
elements — including collections that contain dictionaries — pass through
unchanged. -/
def convElems : List Val → List Val
  | [] => []
  | .vdict es :: rest => .vobj (convEntries es) :: convElems rest
  | v :: rest => v :: convElems rest

end

/-- `dict2obj(d)`: an object whose attributes are the converted entries of
`d`. -/
def dict2obj (d : List (String × Val)) : Val := .vobj (convEntries d)

/-- What `dict2obj` does to one element of a recognised collection
(a non-recursive restatement of the generator expression's body). -/
def convElem : Val → Val
  | .vdict es => .vobj (convEntries es)
  | v => v

/-- Python attribute access on a converted object (`getattr`). -/
def lookupStr (k : String) : List (String × Val) → Option Val
  | [] => none
  | p :: rest => if p.1 = k then some p.2 else lookupStr k rest

/-- The attribute map of a `dict2obj` result. -/
def attrLookup (k : String) : Val → Option Val
  | .vobj es => lookupStr k es
  | _ => none

/-- One row of `yield_objects`: `dict2obj(row)`.  A `DictCursor` row is a
dictionary of atoms; with the default cursor class the row is a tuple and
`type("dict2obj", (object,), d)` raises `TypeError`. -/
def objLoop (cls : CursorClass) : Nat → List (List (String × Nat)) →
    Except Unit (List Val)
  | 0, _ => .ok []
  | Nat.succ _, [] => .error ()
  | Nat.succ k, r :: rest =>
    match shapeRow cls r with
    | .positional _ => .error ()
    | .named es =>
      match objLoop cls k rest with
      | .error _ => .error ()
      | .ok os =>
        .ok (dict2obj (es.map (fun p => (p.1, Val.atom p.2))) :: os)

/-- `yield_objects` (`db.py` lines 291-319), modelled as the list the
fully-consumed generator yields; the local cursor uses `db_cursor_class`. -/
def yield_objects (cfg : DbConfig) (src : CursorSource) (env : StmtEnv) :
    HelperOut (List Val) :=
  { result :=
      if env.execFails then .error ()
      else match objLoop (usedClass cfg.db_cursor_class src) env.count env.rows with
      | .error _ => .error ()
      | .ok os => .ok os,
    cursorClosed :=
      if env.execFails then false
      else match objLoop (usedClass cfg.db_cursor_class src) env.count env.rows with
      | .error _ => false
      | .ok _ => localSrc src,
    localClassUsed := localClassReq cfg.db_cursor_class src }

/-- `Except` success test, used to relate cursor closing to the exit path. -/
def isOk {α : Type} : Except Unit α → Bool
  | .ok _ => true
  | .error _ => false

/-- The single/multi-column rule as the specification states it: a
one-column row yields the bare scalar, otherwise the whole (positional)
row.  Written from the spec text, to be compared against the helpers. -/
def specValue (r : List (String × Nat)) : Value :=
  if r.length = 1 then .scalar (r.headD ("", 0)).2
  else .whole (.positional (r.map (fun p => p.2)))

/-- The conversion rule of the row/object adapter as the specification
states it: nested dictionaries are converted recursively, recognised
collections are rebuilt with their dictionary elements converted and other
elements unchanged, and anything else passes through.  Written from the
spec text, to be compared against `convTop`. -/
def specConv : Val → Val
  | .vdict es => dict2obj es
  | .vcoll kind vs => .vcoll kind (vs.map (fun sj =>
      match sj with
      | .vdict es2 => dict2obj es2
      | x => x))
  | x => x

theorem alLookup_alErase {α : Type} (k k' : Nat) (l : List (Nat × α)) :
    alLookup k' (alErase k l) = if k' = k then none else alLookup k' l := by
  induction l with
  | nil => simp [alErase, alLookup]
  | cons p rest ih =>
    obtain ⟨a, b⟩ := p
    simp only [alErase, alLookup]
    by_cases h1 : a = k
    · subst h1
      by_cases h2 : k' = a
      · subst h2
        simpa using ih
      · have h3 : ¬ a = k' := fun h => h2 h.symm
        simp [ih, h2, h3, alLookup]
    · by_cases h2 : k' = k
      · subst h2
        have h3 : ¬ a = k' := h1
        simp [ih, h1, h3, alLookup]
      · by_cases h3 : a = k'
        · simp [h1, h2, h3, alLookup]
        · simp [ih, h1, h2, h3, alLookup]

theorem alLookup_alUpdate {α : Type} (k k' : Nat) (v : α) (l : List (Nat × α)) :
    alLookup k' (alUpdate k v l) = if k' = k then some v else alLookup k' l := by
  induction l with
  | nil =>
    simp only [alUpdate, alLookup]
    by_cases h : k' = k
    · subst h
      simp
    · rw [if_neg (fun hh => h hh.symm), if_neg h]
  | cons p rest ih =>
    obtain ⟨a, b⟩ := p
    simp only [alUpdate]
    by_cases h1 : a = k
    · subst h1
      by_cases h2 : k' = a
      · subst h2
        simp [alLookup]
      · have h3 : ¬ a = k' := fun h => h2 h.symm
        simp [alLookup, h2, h3]
    · by_cases h2 : k' = k
      · subst h2
        have h3 : ¬ a = k' := h1
        simp [alLookup, h1, h3, ih]
      · by_cases h3 : a = k'
        · simp [alLookup, h1, h2, h3]
        · simp [alLookup, h1, h2, h3, ih]

theorem alKeys_alErase_sublist {α : Type} (k : Nat) (l : List (Nat × α)) :
    (alKeys (alErase k l)).Sublist (alKeys l) := by
  induction l with
  | nil => simp [alErase, alKeys]
  | cons p rest ih =>
    by_cases h : p.1 = k
    · simpa [alErase, alKeys, h] using ih.trans (List.sublist_cons_self _ _)
    · simpa [alErase, alKeys, h] using ih.cons₂ p.1

theorem alKeys_alErase_nodup {α : Type} (k : Nat) (l : List (Nat × α))
    (h : (alKeys l).Nodup) : (alKeys (alErase k l)).Nodup :=
  (alKeys_alErase_sublist k l).nodup h

theorem mem_alKeys_alUpdate {α : Type} (k k' : Nat) (v : α) (l : List (Nat × α)) :
    k' ∈ alKeys (alUpdate k v l) ↔ k' = k ∨ k' ∈ alKeys l := by
  induction l with
  | nil => simp [alUpdate, alKeys]
  | cons p rest ih =>
    obtain ⟨a, b⟩ := p
    by_cases h : a = k
    · subst h
      simp only [alUpdate, if_true]
      simp only [alKeys, List.map_cons, List.mem_cons]
      constructor
      · rintro (h1 | h1)
        · exact Or.inl h1
        · exact Or.inr (Or.inr h1)
      · rintro (h1 | h1 | h1)
        · exact Or.inl h1
        · exact Or.inl h1
        · exact Or.inr h1
    · simp only [alUpdate, if_neg h, alKeys, List.map_cons, List.mem_cons] at ih ⊢
      constructor
      · rintro (h1 | h1)
        · exact Or.inr (Or.inl h1)
        · rcases ih.1 h1 with h2 | h2
          · exact Or.inl h2
          · exact Or.inr (Or.inr h2)
      · rintro (h1 | h1 | h1)
        · exact Or.inr (ih.2 (Or.inl h1))
        · exact Or.inl h1
        · exact Or.inr (ih.2 (Or.inr h1))

theorem alKeys_alUpdate_nodup {α : Type} (k : Nat) (v : α) (l : List (Nat × α))
    (h : (alKeys l).Nodup) : (alKeys (alUpdate k v l)).Nodup := by
  induction l with
  | nil => simp [alUpdate, alKeys]
  | cons p rest ih =>
    obtain ⟨a, b⟩ := p
    simp only [alKeys, List.map_cons, List.nodup_cons] at h
    by_cases hk : a = k
    · subst hk
      simp only [alUpdate, if_true]
      simp only [alKeys, List.map_cons, List.nodup_cons]
      exact ⟨h.1, h.2⟩
    · simp only [alUpdate, if_neg hk, alKeys, List.map_cons, List.nodup_cons]
      refine ⟨fun hmem => ?_, ih h.2⟩
      rcases (mem_alKeys_alUpdate k a v rest).1 hmem with h1 | h1
      · exact hk h1
      · exact h.1 h1

theorem alLookup_of_mem {α : Type} {k : Nat} {v : α} {l : List (Nat × α)}
    (hnd : (alKeys l).Nodup) (hmem : (k, v) ∈ l) : alLookup k l = some v := by
  induction l with
  | nil => simp at hmem
  | cons p rest ih =>
    simp only [alKeys, List.map_cons, List.nodup_cons] at hnd
    rcases List.mem_cons.1 hmem with hm | hm
    · simp [← hm, alLookup]
    · have hkne : ¬ p.1 = k := by
        intro hk
        exact hnd.1 (hk ▸ List.mem_map.2 ⟨(k, v), hm, rfl⟩)
      simp only [alLookup, if_neg hkne]
      exact ih hnd.2 hm

theorem alLookup_isSome_iff_mem_alKeys {α : Type} (k : Nat) (l : List (Nat × α)) :
    (alLookup k l).isSome = true ↔ k ∈ alKeys l := by
  induction l with
  | nil => simp [alLookup, alKeys]
  | cons p rest ih =>
    by_cases h : p.1 = k <;> simp [alLookup, alKeys, h, ih]
    omega

/-! ## Structural lemmas about the sweep -/

theorem evictThread_ok_cases {env : Env} {st : PoolState} {th : Nat} {st2 : PoolState}
    (h : evictThread env st th = .ok st2) :
    ∃ c, alLookup th st.pool = some c ∧ c ∉ env.closeFails ∧
      st2 = { st with closed := c :: st.closed,
                      pool := alErase th st.pool,
                      activity := alErase th st.activity } := by
  unfold evictThread at h
  split at h
  · exact absurd h (by simp)
  · next c hl =>
    split at h
    · exact absurd h (by simp)
    · next hc => exact ⟨c, hl, hc, by cases h; rfl⟩

theorem evictThread_err_state {env : Env} {st : PoolState} {th : Nat}
    {e : DbError} {st' : PoolState}
    (h : evictThread env st th = .error (e, st')) : st' = st := by
  unfold evictThread at h
  split at h
  · cases h; rfl
  · next c hl =>
    split at h
    · cases h; rfl
    · exact absurd h (by simp)

theorem sweepEntry_eq_of_evictable {env : Env} {st : PoolState} {th : Nat} {t : Int}
    (h : evictable env th t) : sweepEntry env st th t = evictThread env st th := by
  rcases h with h | h
  · unfold sweepEntry
    rw [if_neg h]
  · unfold sweepEntry
    by_cases ha : th ∈ env.alive
    · rw [if_pos ha, if_pos h]
    · rw [if_neg ha]

theorem sweepEntry_eq_of_not_evictable {env : Env} {st : PoolState} {th : Nat} {t : Int}
    (h : ¬ evictable env th t) : sweepEntry env st th t = .ok st := by
  unfold evictable at h
  push_neg at h
  unfold sweepEntry
  rw [if_pos h.1, if_neg (not_lt.2 h.2)]

theorem sweepEntry_ok_cases {env : Env} {st : PoolState} {th : Nat} {t : Int}
    {st2 : PoolState} (h : sweepEntry env st th t = .ok st2) :
    st2 = st ∨
    ∃ c, alLookup th st.pool = some c ∧
      st2 = { st with closed := c :: st.closed,
                      pool := alErase th st.pool,
                      activity := alErase th st.activity } := by
  by_cases he : evictable env th t
  · rw [sweepEntry_eq_of_evictable he] at h
    rcases evictThread_ok_cases h with ⟨c, hc1, _, hc3⟩
    exact Or.inr ⟨c, hc1, hc3⟩
  · rw [sweepEntry_eq_of_not_evictable he] at h
    cases h
    exact Or.inl rfl

theorem sweepEntry_err_state {env : Env} {st : PoolState} {th : Nat} {t : Int}
    {e : DbError} {st' : PoolState}
    (h : sweepEntry env st th t = .error (e, st')) : st' = st := by
  by_cases he : evictable env th t
  · rw [sweepEntry_eq_of_evictable he] at h
    exact evictThread_err_state h
  · rw [sweepEntry_eq_of_not_evictable he] at h
    exact absurd h (by simp)

theorem sweep_cons (env : Env) (th : Nat) (t : Int) (rest : List (Nat × Int))
    (st : PoolState) :
    sweep env ((th, t) :: rest) st =
      match sweepEntry env st th t with
      | .error e => .error e
      | .ok st2 => sweep env rest st2 := rfl

theorem sweep_ok_lockHeld {env : Env} {l : List (Nat × Int)} {st st1 : PoolState}
    (h : sweep env l st = .ok st1) : st1.lockHeld = st.lockHeld := by
  induction l generalizing st with
  | nil => cases h; rfl
  | cons p rest ih =>
    obtain ⟨th, t⟩ := p
    rw [sweep_cons] at h
    cases hse : sweepEntry env st th t with
    | error e => rw [hse] at h; exact absurd h (by simp)
    | ok st2 =>
      rw [hse] at h
      rcases sweepEntry_ok_cases hse with h2 | ⟨c, _, h2⟩
      · rw [ih h, h2]
      · rw [ih h, h2]

theorem sweep_err_lockHeld {env : Env} {l : List (Nat × Int)} {st st' : PoolState}
    {e : DbError} (h : sweep env l st = .error (e, st')) :
    st'.lockHeld = st.lockHeld := by
  induction l generalizing st with
  | nil => exact absurd h (by simp [sweep])
  | cons p rest ih =>
    obtain ⟨th, t⟩ := p
    rw [sweep_cons] at h
    cases hse : sweepEntry env st th t with
    | error e2 =>
      rw [hse] at h
      obtain ⟨e2a, st2⟩ := e2
      cases h
      rw [sweepEntry_err_state hse]
    | ok st2 =>
      rw [hse] at h
      rcases sweepEntry_ok_cases hse with h2 | ⟨c, _, h2⟩
      · rw [ih h, h2]
      · rw [ih h, h2]

theorem sweep_ok_closed_mono {env : Env} {l : List (Nat × Int)} {st st1 : PoolState}
    {c : Nat} (hc : c ∈ st.closed) (h : sweep env l st = .ok st1) : c ∈ st1.closed := by
  induction l generalizing st with
  | nil => cases h; exact hc
  | cons p rest ih =>
    obtain ⟨th, t⟩ := p
    rw [sweep_cons] at h
    cases hse : sweepEntry env st th t with
    | error e => rw [hse] at h; exact absurd h (by simp)
    | ok st2 =>
      rw [hse] at h
      rcases sweepEntry_ok_cases hse with h2 | ⟨c2, _, h2⟩
      · exact ih (h2 ▸ hc) h
      · exact ih (by rw [h2]; exact List.mem_cons_of_mem _ hc) h

theorem sweep_ok_pool_none_mono {env : Env} {l : List (Nat × Int)} {st st1 : PoolState}
    {th : Nat} (hn : alLookup th st.pool = none) (h : sweep env l st = .ok st1) :
    alLookup th st1.pool = none := by
  induction l generalizing st with
  | nil => cases h; exact hn
  | cons p rest ih =>
    obtain ⟨th2, t⟩ := p
    rw [sweep_cons] at h
    cases hse : sweepEntry env st th2 t with
    | error e => rw [hse] at h; exact absurd h (by simp)
    | ok st2 =>
      rw [hse] at h
      rcases sweepEntry_ok_cases hse with h2 | ⟨c2, _, h2⟩
      · exact ih (h2 ▸ hn) h
      · refine ih ?_ h
        rw [h2]
        show alLookup th (alErase th2 st.pool) = none
        rw [alLookup_alErase]
        by_cases hth : th = th2
        · rw [if_pos hth]
        · rw [if_neg hth]; exact hn

theorem sweep_ok_activity_none_mono {env : Env} {l : List (Nat × Int)}
    {st st1 : PoolState} {th : Nat} (hn : alLookup th st.activity = none)
    (h : sweep env l st = .ok st1) : alLookup th st1.activity = none := by
  induction l generalizing st with
  | nil => cases h; exact hn
  | cons p rest ih =>
    obtain ⟨th2, t⟩ := p
    rw [sweep_cons] at h
    cases hse : sweepEntry env st th2 t with
    | error e => rw [hse] at h; exact absurd h (by simp)
    | ok st2 =>
      rw [hse] at h
      rcases sweepEntry_ok_cases hse with h2 | ⟨c2, _, h2⟩
      · exact ih (h2 ▸ hn) h
      · refine ih ?_ h
        rw [h2]
        show alLookup th (alErase th2 st.activity) = none
        rw [alLookup_alErase]
        by_cases hth : th = th2
        · rw [if_pos hth]
        · rw [if_neg hth]; exact hn

theorem sweepEntry_other_keys {env : Env} {st st2 : PoolState} {th2 : Nat} {t : Int}
    (th : Nat) (hne : th ≠ th2) (h : sweepEntry env st th2 t = .ok st2) :
    alLookup th st2.pool = alLookup th st.pool ∧
      alLookup th st2.activity = alLookup th st.activity ∧
      (∀ c, c ∈ st.closed → c ∈ st2.closed) := by
  rcases sweepEntry_ok_cases h with h2 | ⟨c, _, h2⟩
  · rw [h2]
    exact ⟨rfl, rfl, fun _ hc => hc⟩
  · subst h2
    refine ⟨?_, ?_, fun c2 hc => List.mem_cons_of_mem _ hc⟩
    · show alLookup th (alErase th2 st.pool) = _
      rw [alLookup_alErase, if_neg hne]
    · show alLookup th (alErase th2 st.activity) = _
      rw [alLookup_alErase, if_neg hne]

/-- Core eviction lemma: if an entry `(th, t)` of the swept snapshot is
evictable (dead thread or idle), thread keys of the snapshot are distinct,
and the sweep completes, then afterwards `th` is gone from both maps and the
connection it owned has been closed. -/
theorem sweep_evicts {env : Env} {l : List (Nat × Int)} {st st1 : PoolState}
    {th : Nat} {t : Int} {c : Nat}
    (hmem : (th, t) ∈ l) (hnd : (l.map (fun p => p.1)).Nodup)
    (hcond : evictable env th t)
    (hc : alLookup th st.pool = some c)
    (hrun : sweep env l st = .ok st1) :
    alLookup th st1.pool = none ∧ alLookup th st1.activity = none ∧ c ∈ st1.closed := by
  induction l generalizing st with
  | nil => simp at hmem
  | cons p rest ih =>
    obtain ⟨th2, t2⟩ := p
    rw [sweep_cons] at hrun
    cases hse : sweepEntry env st th2 t2 with
    | error e => rw [hse] at hrun; exact absurd hrun (by simp)
    | ok st2 =>
      rw [hse] at hrun
      simp only [List.map_cons, List.nodup_cons] at hnd
      by_cases hth : th = th2
      · subst hth
        have ht2 : t2 = t := by
          rcases List.mem_cons.1 hmem with hm | hm
          · injection hm with h1 h2
            exact h2.symm
          · exact absurd (List.mem_map.2 ⟨(th, t), hm, rfl⟩) hnd.1
        subst ht2
        rw [sweepEntry_eq_of_evictable hcond] at hse
        rcases evictThread_ok_cases hse with ⟨c2, hc2, _, hst2⟩
        have hcc : c2 = c := by
          rw [hc] at hc2
          exact (Option.some.inj hc2).symm
        subst hcc
        refine ⟨?_, ?_, ?_⟩
        · refine sweep_ok_pool_none_mono ?_ hrun
          rw [hst2]
          show alLookup th (alErase th st.pool) = none
          rw [alLookup_alErase, if_pos rfl]
        · refine sweep_ok_activity_none_mono ?_ hrun
          rw [hst2]
          show alLookup th (alErase th st.activity) = none
          rw [alLookup_alErase, if_pos rfl]
        · refine sweep_ok_closed_mono ?_ hrun
          rw [hst2]
          exact List.mem_cons_self _ _
      · have hm : (th, t) ∈ rest := by
          rcases List.mem_cons.1 hmem with hm | hm
          · exact absurd (congrArg Prod.fst hm) hth
          · exact hm
        rcases sweepEntry_other_keys th hth hse with ⟨hp, _, _⟩
        exact ih hm hnd.2 (by rw [hp]; exact hc) hrun

/-- An entry that is never evictable (its thread is alive and it is not
idle at every occurrence in the snapshot) survives the sweep with both of
its map bindings intact. -/
theorem sweep_preserves {env : Env} {l : List (Nat × Int)} {st st1 : PoolState}
    {ct : Nat} {t0 : Int} {c : Nat}
    (hkeep : ∀ t, (ct, t) ∈ l → ¬ evictable env ct t)
    (hp : alLookup ct st.pool = some c)
    (ha : alLookup ct st.activity = some t0)
    (hrun : sweep env l st = .ok st1) :
    alLookup ct st1.pool = some c ∧ alLookup ct st1.activity = some t0 := by
  induction l generalizing st with
  | nil => cases hrun; exact ⟨hp, ha⟩
  | cons p rest ih =>
    obtain ⟨th2, t2⟩ := p
    rw [sweep_cons] at hrun
    cases hse : sweepEntry env st th2 t2 with
    | error e => rw [hse] at hrun; exact absurd hrun (by simp)
    | ok st2 =>
      rw [hse] at hrun
      by_cases hth : ct = th2
      · subst hth
        have hne : ¬ evictable env ct t2 := hkeep t2 (List.mem_cons_self _ _)
        rw [sweepEntry_eq_of_not_evictable hne] at hse
        cases hse
        exact ih (fun t ht => hkeep t (List.mem_cons_of_mem _ ht)) hp ha hrun
      · rcases sweepEntry_other_keys ct hth hse with ⟨hpp, hpa, _⟩
        exact ih (fun t ht => hkeep t (List.mem_cons_of_mem _ ht))
          (by rw [hpp]; exact hp) (by rw [hpa]; exact ha) hrun

/-- The sweep completes normally whenever no `close()` call fails and each
entry of the snapshot (with distinct keys) has a pooled connection. -/
theorem sweep_ok_total {env : Env} (l : List (Nat × Int)) (st : PoolState)
    (hcf : env.closeFails = [])
    (hnd : (l.map (fun p => p.1)).Nodup)
    (hpool : ∀ th t, (th, t) ∈ l → (alLookup th st.pool).isSome = true) :
    ∃ st1, sweep env l st = .ok st1 := by
  induction l generalizing st with
  | nil => exact ⟨st, rfl⟩
  | cons p rest ih =>
    obtain ⟨th2, t2⟩ := p
    simp only [List.map_cons, List.nodup_cons] at hnd
    by_cases he : evictable env th2 t2
    · cases hl : alLookup th2 st.pool with
      | none =>
        have := hpool th2 t2 (List.mem_cons_self _ _)
        rw [hl] at this
        exact absurd this (by simp)
      | some c =>
        have hstep : sweepEntry env st th2 t2 =
            .ok { st with closed := c :: st.closed,
                          pool := alErase th2 st.pool,
                          activity := alErase th2 st.activity } := by
          rw [sweepEntry_eq_of_evictable he]
          unfold evictThread
          rw [hl]
          dsimp only
          rw [if_neg (by rw [hcf]; exact List.not_mem_nil c)]
        have hrest : ∀ th t, (th, t) ∈ rest →
            (alLookup th ({ st with closed := c :: st.closed,
                                    pool := alErase th2 st.pool,
                                    activity := alErase th2 st.activity
                          } : PoolState).pool).isSome = true := by
          intro th t ht
          show (alLookup th (alErase th2 st.pool)).isSome = true
          have hne : th ≠ th2 := by
            intro hh
            exact hnd.1 (hh ▸ List.mem_map.2 ⟨(th, t), ht, rfl⟩)
          rw [alLookup_alErase, if_neg hne]
          exact hpool th t (List.mem_cons_of_mem _ ht)
        rcases ih _ hnd.2 hrest with ⟨st1, hst1⟩
        exact ⟨st1, by rw [sweep_cons, hstep]; exact hst1⟩
    · rcases ih st hnd.2 (fun th t ht => hpool th t (List.mem_cons_of_mem _ ht)) with
        ⟨st1, hst1⟩
      exact ⟨st1, by rw [sweep_cons, sweepEntry_eq_of_not_evictable he]; exact hst1⟩

/-- The sweep preserves the pool/activity key invariant. -/
theorem sweep_ok_inv {env : Env} {l : List (Nat × Int)} {st st1 : PoolState}
    (hinv : poolInv st) (hrun : sweep env l st = .ok st1) : poolInv st1 := by
  induction l generalizing st with
  | nil => cases hrun; exact hinv
  | cons p rest ih =>
    obtain ⟨th2, t2⟩ := p
    rw [sweep_cons] at hrun
    cases hse : sweepEntry env st th2 t2 with
    | error e => rw [hse] at hrun; exact absurd hrun (by simp)
    | ok st2 =>
      rw [hse] at hrun
      refine ih ?_ hrun
      rcases sweepEntry_ok_cases hse with h2 | ⟨c, _, h2⟩
      · exact h2 ▸ hinv
      · subst h2
        intro k
        show (alLookup k (alErase th2 st.pool)).isSome =
          (alLookup k (alErase th2 st.activity)).isSome
        rw [alLookup_alErase, alLookup_alErase]
        by_cases hk : k = th2
        · rw [if_pos hk, if_pos hk]
          rfl
        · rw [if_neg hk, if_neg hk]
          exact hinv k

/-- The sweep never duplicates activity keys (it only deletes entries). -/
theorem sweep_ok_activity_nodup {env : Env} {l : List (Nat × Int)} {st st1 : PoolState}
    (hnd : (alKeys st.activity).Nodup) (hrun : sweep env l st = .ok st1) :
    (alKeys st1.activity).Nodup := by
  induction l generalizing st with
  | nil => cases hrun; exact hnd
  | cons p rest ih =>
    obtain ⟨th2, t2⟩ := p
    rw [sweep_cons] at hrun
    cases hse : sweepEntry env st th2 t2 with
    | error e => rw [hse] at hrun; exact absurd hrun (by simp)
    | ok st2 =>
      rw [hse] at hrun
      refine ih ?_ hrun
      rcases sweepEntry_ok_cases hse with h2 | ⟨c, _, h2⟩
      · exact h2 ▸ hnd
      · subst h2
        exact alKeys_alErase_nodup th2 st.activity hnd

/-! ## Structural lemmas about the ping/replace loop -/

theorem pingLoop_ok_of_pingOk {env : Env} {ct conn : Nat} {st : PoolState}
    (fresh : List Nat) (h : conn ∈ env.pingOk) :
    pingLoop env ct fresh conn st = .ok (st, conn) := by
  unfold pingLoop
  rw [if_pos h]

theorem pingLoop_ok_frame (env : Env) (ct : Nat) (fresh : List Nat) :
    ∀ conn st st2 conn', pingLoop env ct fresh conn st = .ok (st2, conn') →
      st2.activity = st.activity ∧ st2.closed = st.closed ∧
      st2.lockHeld = st.lockHeld := by
  induction fresh with
  | nil =>
    intro conn st st2 conn' h
    unfold pingLoop at h
    by_cases hp : conn ∈ env.pingOk
    · rw [if_pos hp] at h
      cases h
      exact ⟨rfl, rfl, rfl⟩
    · rw [if_neg hp] at h
      by_cases hc : env.connectNone = true
      · rw [if_pos hc] at h; exact absurd h (by simp)
      · rw [if_neg hc] at h; exact absurd h (by simp)
  | cons c rest ih =>
    intro conn st st2 conn' h
    unfold pingLoop at h
    by_cases hp : conn ∈ env.pingOk
    · rw [if_pos hp] at h
      cases h
      exact ⟨rfl, rfl, rfl⟩
    · rw [if_neg hp] at h
      by_cases hc : env.connectNone = true
      · rw [if_pos hc] at h; exact absurd h (by simp)
      · rw [if_neg hc] at h
        dsimp only at h
        have h2 := ih _ _ _ _ h
        exact h2

theorem pingLoop_err_frame (env : Env) (ct : Nat) (fresh : List Nat) :
    ∀ conn st st' e, pingLoop env ct fresh conn st = .error (e, st') →
      st'.activity = st.activity ∧ st'.closed = st.closed ∧
      st'.lockHeld = st.lockHeld := by
  induction fresh with
  | nil =>
    intro conn st st' e h
    unfold pingLoop at h
    by_cases hp : conn ∈ env.pingOk
    · rw [if_pos hp] at h; exact absurd h (by simp)
    · rw [if_neg hp] at h
      by_cases hc : env.connectNone = true
      · rw [if_pos hc] at h
        cases h
        exact ⟨rfl, rfl, rfl⟩
      · rw [if_neg hc] at h
        dsimp only at h
        cases h
        exact ⟨rfl, rfl, rfl⟩
  | cons c rest ih =>
    intro conn st st' e h
    unfold pingLoop at h
    by_cases hp : conn ∈ env.pingOk
    · rw [if_pos hp] at h; exact absurd h (by simp)
    · rw [if_neg hp] at h
      by_cases hc : env.connectNone = true
      · rw [if_pos hc] at h
        cases h
        exact ⟨rfl, rfl, rfl⟩
      · rw [if_neg hc] at h
        dsimp only at h
        have h2 := ih _ _ _ _ h
        exact h2

theorem pingLoop_ok_lookup (env : Env) (ct : Nat) (fresh : List Nat) :
    ∀ conn st st2 conn', alLookup ct st.pool = some conn →
      pingLoop env ct fresh conn st = .ok (st2, conn') →
      alLookup ct st2.pool = some conn' := by
  induction fresh with
  | nil =>
    intro conn st st2 conn' hl h
    unfold pingLoop at h
    by_cases hp : conn ∈ env.pingOk
    · rw [if_pos hp] at h
      cases h
      exact hl
    · rw [if_neg hp] at h
      by_cases hc : env.connectNone = true
      · rw [if_pos hc] at h; exact absurd h (by simp)
      · rw [if_neg hc] at h; exact absurd h (by simp)
  | cons c rest ih =>
    intro conn st st2 conn' hl h
    unfold pingLoop at h
    by_cases hp : conn ∈ env.pingOk
    · rw [if_pos hp] at h
      cases h
      exact hl
    · rw [if_neg hp] at h
      by_cases hc : env.connectNone = true
      · rw [if_pos hc] at h; exact absurd h (by simp)
      · rw [if_neg hc] at h
        dsimp only at h
        refine ih c _ _ _ ?_ h
        show alLookup ct (alUpdate ct c st.pool) = some c
        rw [alLookup_alUpdate, if_pos rfl]

theorem pingLoop_pool_other (env : Env) (ct : Nat) (fresh : List Nat) :
    ∀ conn st st2 conn', pingLoop env ct fresh conn st = .ok (st2, conn') →
      ∀ k, k ≠ ct → alLookup k st2.pool = alLookup k st.pool := by
  induction fresh with
  | nil =>
    intro conn st st2 conn' h
    unfold pingLoop at h
    by_cases hp : conn ∈ env.pingOk
    · rw [if_pos hp] at h
      cases h
      exact fun k _ => rfl
    · rw [if_neg hp] at h
      by_cases hc : env.connectNone = true
      · rw [if_pos hc] at h; exact absurd h (by simp)
      · rw [if_neg hc] at h; exact absurd h (by simp)
  | cons c rest ih =>
    intro conn st st2 conn' h
    unfold pingLoop at h
    by_cases hp : conn ∈ env.pingOk
    · rw [if_pos hp] at h
      cases h
      exact fun k _ => rfl
    · rw [if_neg hp] at h
      by_cases hc : env.connectNone = true
      · rw [if_pos hc] at h; exact absurd h (by simp)
      · rw [if_neg hc] at h
        dsimp only at h
        intro k hk
        rw [ih c _ _ _ h k hk]
        show alLookup k (alUpdate ct c st.pool) = _
        rw [alLookup_alUpdate, if_neg hk]

/-! ## Destructuring a successful `get_connection` call -/

theorem get_connection_ok_destruct {env : Env} {s s' : PoolState} {conn : Nat}
    (h : get_connection env s = .ok s' conn) :
    s.lockHeld = false ∧ s'.lockHeld = false ∧
    alLookup env.currentThread s'.pool = some conn ∧
    ∃ st1, sweep env s.activity { s with lockHeld := true } = .ok st1 ∧
      s'.activity = alUpdate env.currentThread env.now st1.activity ∧
      s'.closed = st1.closed ∧
      (∀ k, k ≠ env.currentThread → alLookup k s'.pool = alLookup k st1.pool) ∧
      (poolInv st1 → poolInv s') := by
  unfold get_connection at h
  by_cases hl : s.lockHeld
  · rw [if_pos hl] at h
    exact absurd h (by simp)
  · rw [if_neg hl] at h
    refine ⟨by simpa using hl, ?_⟩
    cases hs : sweep env s.activity { s with lockHeld := true } with
    | error e =>
      obtain ⟨e1, st'⟩ := e
      rw [hs] at h
      exact absurd h (by simp)
    | ok st1 =>
      rw [hs] at h
      dsimp only at h
      cases hlk : alLookup env.currentThread st1.pool with
      | some conn0 =>
        rw [hlk] at h
        dsimp only at h
        cases hpl : pingLoop env env.currentThread env.freshConns conn0 st1 with
        | error e =>
          obtain ⟨e1, st'⟩ := e
          rw [hpl] at h
          exact absurd h (by simp)
        | ok pr =>
          obtain ⟨st2, conn'⟩ := pr
          rw [hpl] at h
          dsimp only at h
          rw [GCResult.ok.injEq] at h
          obtain ⟨h1, h2⟩ := h
          subst h1
          subst h2
          rcases pingLoop_ok_frame env env.currentThread env.freshConns
            conn0 st1 st2 conn' hpl with ⟨hact, hcl, _⟩
          have hlk2 : alLookup env.currentThread st2.pool = some conn' :=
            pingLoop_ok_lookup env env.currentThread env.freshConns
              conn0 st1 st2 conn' hlk hpl
          refine ⟨rfl, hlk2, st1, rfl, by rw [hact], by rw [hcl], ?_, ?_⟩
          · intro k hk
            exact pingLoop_pool_other env env.currentThread env.freshConns
              conn0 st1 st2 conn' hpl k hk
          · intro hinv1
            intro k
            by_cases hk : k = env.currentThread
            · show (alLookup k st2.pool).isSome =
                (alLookup k (alUpdate env.currentThread env.now st2.activity)).isSome
              rw [alLookup_alUpdate, if_pos hk, hk, hlk2]
              rfl
            · show (alLookup k st2.pool).isSome =
                (alLookup k (alUpdate env.currentThread env.now st2.activity)).isSome
              rw [alLookup_alUpdate, if_neg hk,
                pingLoop_pool_other env env.currentThread env.freshConns
                  conn0 st1 st2 conn' hpl k hk, hact]
              exact hinv1 k
      | none =>
        rw [hlk] at h
        dsimp only at h
        by_cases hc : env.connectNone = true
        · rw [if_pos hc] at h
          exact absurd h (by simp)
        · rw [if_neg hc] at h
          cases hf : env.freshConns with
          | nil =>
            rw [hf] at h
            exact absurd h (by simp)
          | cons c rest =>
            rw [hf] at h
            dsimp only at h
            rw [GCResult.ok.injEq] at h
            obtain ⟨h1, h2⟩ := h
            subst h1
            subst h2
            refine ⟨rfl, ?_, st1, rfl, rfl, rfl, ?_, ?_⟩
            · show alLookup env.currentThread
                (alUpdate env.currentThread c st1.pool) = some c
              rw [alLookup_alUpdate, if_pos rfl]
            · intro k hk
              show alLookup k (alUpdate env.currentThread c st1.pool) = _
              rw [alLookup_alUpdate, if_neg hk]
            · intro hinv1
              intro k
              by_cases hk : k = env.currentThread
              · show (alLookup k (alUpdate env.currentThread c st1.pool)).isSome =
                  (alLookup k (alUpdate env.currentThread env.now st1.activity)).isSome
                rw [alLookup_alUpdate, alLookup_alUpdate, if_pos hk, if_pos hk]
                rfl
              · show (alLookup k (alUpdate env.currentThread c st1.pool)).isSome =
                  (alLookup k (alUpdate env.currentThread env.now st1.activity)).isSome
                rw [alLookup_alUpdate, if_neg hk, alLookup_alUpdate, if_neg hk]
                exact hinv1 k

/-! ## Structural lemmas about `close_connections` and error propagation -/

theorem closeList_ok_frame (env : Env) (l : List (Nat × Nat)) :
    ∀ st st2, closeList env l st = .ok st2 →
      st2.pool = st.pool ∧ st2.activity = st.activity ∧
      st2.lockHeld = st.lockHeld ∧ (∀ c, c ∈ st.closed → c ∈ st2.closed) := by
  induction l with
  | nil =>
    intro st st2 h
    cases h
    exact ⟨rfl, rfl, rfl, fun _ hc => hc⟩
  | cons p rest ih =>
    intro st st2 h
    obtain ⟨t, c⟩ := p
    unfold closeList at h
    by_cases hc : c ∈ env.closeFails
    · rw [if_pos hc] at h
      exact absurd h (by simp)
    · rw [if_neg hc] at h
      rcases ih _ _ h with ⟨h1, h2, h3, h4⟩
      exact ⟨h1, h2, h3, fun c2 hc2 => h4 c2 (List.mem_cons_of_mem _ hc2)⟩

theorem closeList_ok_closes (env : Env) (l : List (Nat × Nat)) :
    ∀ st st2, closeList env l st = .ok st2 →
      ∀ p, p ∈ l → p.2 ∈ st2.closed := by
  induction l with
  | nil =>
    intro st st2 _ p hp
    simp at hp
  | cons q rest ih =>
    intro st st2 h p hp
    obtain ⟨t, c⟩ := q
    unfold closeList at h
    by_cases hc : c ∈ env.closeFails
    · rw [if_pos hc] at h
      exact absurd h (by simp)
    · rw [if_neg hc] at h
      rcases List.mem_cons.1 hp with hm | hm
      · subst hm
        exact (closeList_ok_frame env rest _ _ h).2.2.2 c (List.mem_cons_self _ _)
      · exact ih _ _ h p hm

theorem closeList_closeFails_congr (env1 env2 : Env)
    (hcf : env1.closeFails = env2.closeFails) (l : List (Nat × Nat)) :
    ∀ st, closeList env1 l st = closeList env2 l st := by
  induction l with
  | nil => intro st; rfl
  | cons p rest ih =>
    intro st
    obtain ⟨t, c⟩ := p
    unfold closeList
    rw [hcf]
    by_cases hc : c ∈ env2.closeFails
    · rw [if_pos hc, if_pos hc]
    · rw [if_neg hc, if_neg hc]
      exact ih _

theorem get_connection_err_lock {env : Env} {s : PoolState} {e : DbError}
    {s' : PoolState} (h : get_connection env s = .err e s') :
    s'.lockHeld = true := by
  unfold get_connection at h
  by_cases hl : s.lockHeld
  · rw [if_pos hl] at h
    exact absurd h (by simp)
  · rw [if_neg hl] at h
    cases hs : sweep env s.activity { s with lockHeld := true } with
    | error e2 =>
      obtain ⟨e1, st'⟩ := e2
      rw [hs] at h
      dsimp only at h
      rw [GCResult.err.injEq] at h
      obtain ⟨h1, h2⟩ := h
      subst h2
      exact sweep_err_lockHeld hs
    | ok st1 =>
      rw [hs] at h
      dsimp only at h
      have hlk1 : st1.lockHeld = true := sweep_ok_lockHeld hs
      cases hlk : alLookup env.currentThread st1.pool with
      | some conn0 =>
        rw [hlk] at h
        dsimp only at h
        cases hpl : pingLoop env env.currentThread env.freshConns conn0 st1 with
        | error e2 =>
          obtain ⟨e1, st'⟩ := e2
          rw [hpl] at h
          dsimp only at h
          rw [GCResult.err.injEq] at h
          obtain ⟨h1, h2⟩ := h
          subst h2
          rw [(pingLoop_err_frame env env.currentThread env.freshConns
            conn0 st1 st' e1 hpl).2.2]
          exact hlk1
        | ok pr =>
          obtain ⟨st2, conn'⟩ := pr
          rw [hpl] at h
          exact absurd h (by simp)
      | none =>
        rw [hlk] at h
        dsimp only at h
        by_cases hc : env.connectNone = true
        · rw [if_pos hc] at h
          rw [GCResult.err.injEq] at h
          obtain ⟨h1, h2⟩ := h
          subst h2
          exact hlk1
        · rw [if_neg hc] at h
          cases hf : env.freshConns with
          | nil =>
            rw [hf] at h
            dsimp only at h
            rw [GCResult.err.injEq] at h
            obtain ⟨h1, h2⟩ := h
            subst h2
            exact hlk1
          | cons c rest =>
            rw [hf] at h
            exact absurd h (by simp)

theorem get_connection_blocked_of_lock {env : Env} {s : PoolState}
    (h : s.lockHeld = true) : get_connection env s = .blocked := by
  unfold get_connection
  rw [if_pos h]

/-! ## Lemmas about the query helpers -/

theorem usedClass_local {cls : CursorClass} {src : CursorSource}
    (h : localSrc src = true) : usedClass cls src = cls := by
  cases src with
  | fromConnection => rfl
  | fromCursor c => exact absurd h (by simp [localSrc])
  | fromPool => rfl

theorem localClassReq_local {cls : CursorClass} {src : CursorSource}
    (h : localSrc src = true) : localClassReq cls src = some cls := by
  unfold localClassReq
  rw [h]
  rfl

theorem fetchLoop_eq_take (cls : CursorClass) :
    ∀ (k : Nat) (rows : List (List (String × Nat))), k ≤ rows.length →
      fetchLoop cls k rows = (rows.take k).map (fun r => some (shapeRow cls r)) := by
  intro k
  induction k with
  | zero =>
    intro rows _
    simp [fetchLoop]
  | succ k ih =>
    intro rows hk
    cases rows with
    | nil => simp at hk
    | cons r rest =>
      simp only [fetchLoop, List.take_succ_cons, List.map_cons]
      rw [ih rest (by simpa using hk)]

theorem valueOfRow_default (r : List (String × Nat)) :
    valueOfRow (shapeRow .defaultClass r) = .ok (specValue r) := by
  cases r with
  | nil => simp [shapeRow, valueOfRow, specValue]
  | cons p rest =>
    cases rest with
    | nil => simp [shapeRow, valueOfRow, specValue]
    | cons q rest2 => simp [shapeRow, valueOfRow, specValue]

theorem valuesLoop_default_ok :
    ∀ rows : List (List (String × Nat)),
      valuesLoop .defaultClass rows.length rows = .ok (rows.map specValue) := by
  intro rows
  induction rows with
  | nil => rfl
  | cons r rest ih =>
    show valuesLoop .defaultClass (rest.length + 1) (r :: rest) = _
    simp only [valuesLoop, valueOfRow_default, ih, List.map_cons]


/-! ## Claim C2 (corrected) -/

/-- Claim C2, as stated, is false of the code: it requires every query
helper to close a locally owned cursor on every exit path including error
paths, but the helpers have no `try`/`finally`, so when statement execution
raises, the helper propagates the error without closing the cursor.
Concretely, `execute` run through the pooled connection with a failing
statement raises and leaves its local cursor open. -/
theorem helper_error_leaves_cursor_open :
    localSrc .fromPool = true ∧
    (execute ⟨.dictClass⟩ .fromPool ⟨true, 0, []⟩).result = .error () ∧
    (execute ⟨.dictClass⟩ .fromPool ⟨true, 0, []⟩).cursorClosed = false := by
  exact ⟨rfl, rfl, rfl⟩

/-- Claim C2 (amended): in `execute`, `fetch_one`, `fetch_all`, `fetch_n`,
`fetch_value` and `fetch_values`, a locally owned cursor is closed exactly
when the helper completes normally; on an error exit (statement execution
or row processing raising) the cursor is left open, and a borrowed cursor
is never closed. -/
theorem local_cursor_closed_iff_success (cfg : DbConfig) (src : CursorSource)
    (env : StmtEnv) (n : Nat) :
    (execute cfg src env).cursorClosed
      = (localSrc src && isOk (execute cfg src env).result) ∧
    (fetch_one cfg src env).cursorClosed
      = (localSrc src && isOk (fetch_one cfg src env).result) ∧
    (fetch_all cfg src env).cursorClosed
      = (localSrc src && isOk (fetch_all cfg src env).result) ∧
    (fetch_n cfg src env n).cursorClosed
      = (localSrc src && isOk (fetch_n cfg src env n).result) ∧
    (fetch_value cfg src env).cursorClosed
      = (localSrc src && isOk (fetch_value cfg src env).result) ∧
    (fetch_values cfg src env).cursorClosed
      = (localSrc src && isOk (fetch_values cfg src env).result) := by
  refine ⟨?_, ?_, ?_, ?_, ?_, ?_⟩
  · cases he : env.execFails <;> simp [execute, isOk, he]
  · cases he : env.execFails
    · cases hr : env.rows <;> simp [fetch_one, isOk, he, hr]
    · simp [fetch_one, isOk, he]
  · cases he : env.execFails <;> simp [fetch_all, isOk, he]
  · cases he : env.execFails <;> simp [fetch_n, isOk, he]
  · cases he : env.execFails
    · by_cases hc : env.count = 0
      · simp [fetch_value, isOk, he, hc]
      · cases hr : env.rows with
        | nil => simp [fetch_value, isOk, he, hc, hr]
        | cons r rest =>
          cases hv : valueOfRow (shapeRow (usedClass .defaultClass src) r) <;>
            simp [fetch_value, isOk, he, hc, hr, hv]
    · simp [fetch_value, isOk, he]
  · cases he : env.execFails
    · cases hv : valuesLoop (usedClass .defaultClass src) env.count env.rows <;>
        simp [fetch_values, isOk, he, hv]
    · simp [fetch_values, isOk, he]

/-! ## Claim C5 -/

/-- Claim C5: when the statement reports `count` available rows, `fetch_n`
returns exactly `min n count` rows, in fetch order, and never more than
`n`. -/
theorem fetch_n_returns_min_rows (cfg : DbConfig) (src : CursorSource)
    (env : StmtEnv) (n : Nat)
    (hexec : env.execFails = false) (hcount : env.count = env.rows.length) :
    ∃ l, (fetch_n cfg src env n).result = .ok l ∧
      l = (env.rows.take (min n env.count)).map
        (fun r => some (shapeRow (usedClass cfg.db_cursor_class src) r)) ∧
      l.length = min n env.count ∧ l.length ≤ n := by
  have hmin : (if env.count > n then n else env.count) = min n env.count := by
    by_cases hgt : env.count > n
    · rw [if_pos hgt]
      exact (Nat.min_eq_left (Nat.le_of_lt hgt)).symm
    · rw [if_neg hgt]
      exact (Nat.min_eq_right (Nat.le_of_not_lt hgt)).symm
  have hle : min n env.count ≤ env.rows.length := by
    rw [← hcount]
    exact Nat.min_le_right n env.count
  refine ⟨(env.rows.take (min n env.count)).map
    (fun r => some (shapeRow (usedClass cfg.db_cursor_class src) r)), ?_, rfl, ?_, ?_⟩
  · show (if env.execFails then (.error () : Except Unit (List (Option Row)))
      else .ok (fetchLoop (usedClass cfg.db_cursor_class src)
        (if env.count > n then n else env.count) env.rows)) = _
    rw [hexec, if_neg Bool.false_ne_true, hmin,
      fetchLoop_eq_take (usedClass cfg.db_cursor_class src) (min n env.count)
        env.rows hle]
  · rw [List.length_map, List.length_take]
    exact Nat.min_eq_left hle
  · rw [List.length_map, List.length_take]
    exact le_trans (Nat.min_le_left _ _) (Nat.min_le_left n env.count)

/-- Witness for claim C5 at a concrete input: three available rows, `n = 2`. -/
theorem fetch_n_returns_min_rows_witness :
    ∃ l, (fetch_n ⟨.dictClass⟩ .fromPool
        ⟨false, 3, [[("a", 1)], [("a", 2)], [("a", 3)]]⟩ 2).result = .ok l ∧
      l = (([[("a", 1)], [("a", 2)], [("a", 3)]] :
          List (List (String × Nat))).take (min 2 3)).map
        (fun r => some (shapeRow (usedClass CursorClass.dictClass .fromPool) r)) ∧
      l.length = min 2 3 ∧ l.length ≤ 2 :=
  fetch_n_returns_min_rows ⟨.dictClass⟩ .fromPool
    ⟨false, 3, [[("a", 1)], [("a", 2)], [("a", 3)]]⟩ 2 rfl rfl

/-! ## Claim C6 -/

/-- Claim C6: for `fetch_value`, `fetch_values` and `yield_values` with a
locally created cursor, a one-column row yields the bare scalar, a
multi-column row yields the whole row, and `fetch_value` returns `None`
when the statement reports zero rows. -/
theorem value_helpers_single_multi_rule (cfg : DbConfig) (src : CursorSource)
    (env : StmtEnv) (hsrc : localSrc src = true)
    (hexec : env.execFails = false) (hcount : env.count = env.rows.length) :
    (fetch_value cfg src env).result =
      .ok (match env.rows with
        | [] => none
        | r :: _ => some (specValue r)) ∧
    (fetch_values cfg src env).result = .ok (env.rows.map specValue) ∧
    (yield_values cfg src env).result = .ok (env.rows.map specValue) := by
  have hu : usedClass CursorClass.defaultClass src = .defaultClass :=
    usedClass_local hsrc
  refine ⟨?_, ?_, ?_⟩
  · show (if env.execFails then (.error () : Except Unit (Option Value))
      else if env.count = 0 then .ok none
      else match env.rows with
      | [] => .error ()
      | r :: _ =>
        match valueOfRow (shapeRow (usedClass .defaultClass src) r) with
        | .error _ => .error ()
        | .ok v => .ok (some v)) = _
    rw [hexec, if_neg Bool.false_ne_true, hu]
    cases hr : env.rows with
    | nil =>
      rw [if_pos (by rw [hcount, hr]; rfl)]
    | cons r rest =>
      rw [if_neg (by rw [hcount, hr]; simp)]
      dsimp only
      rw [valueOfRow_default]
  · show (if env.execFails then (.error () : Except Unit (List Value))
      else match valuesLoop (usedClass .defaultClass src) env.count env.rows with
      | .error _ => .error ()
      | .ok vs => .ok vs) = _
    rw [hexec, if_neg Bool.false_ne_true, hu, hcount, valuesLoop_default_ok]
  · show (if env.execFails then (.error () : Except Unit (List Value))
      else match valuesLoop (usedClass .defaultClass src) env.count env.rows with
      | .error _ => .error ()
      | .ok vs => .ok vs) = _
    rw [hexec, if_neg Bool.false_ne_true, hu, hcount, valuesLoop_default_ok]

/-- Witness for claim C6 at a concrete input: one one-column row and one
two-column row. -/
theorem value_helpers_single_multi_rule_witness :
    (fetch_value ⟨.dictClass⟩ .fromPool
        ⟨false, 2, [[("a", 5)], [("a", 6), ("b", 7)]]⟩).result =
      .ok (match ([[("a", 5)], [("a", 6), ("b", 7)]] :
          List (List (String × Nat))) with
        | [] => none
        | r :: _ => some (specValue r)) ∧
    (fetch_values ⟨.dictClass⟩ .fromPool
        ⟨false, 2, [[("a", 5)], [("a", 6), ("b", 7)]]⟩).result =
      .ok (([[("a", 5)], [("a", 6), ("b", 7)]] :
          List (List (String × Nat))).map specValue) ∧
    (yield_values ⟨.dictClass⟩ .fromPool
        ⟨false, 2, [[("a", 5)], [("a", 6), ("b", 7)]]⟩).result =
      .ok (([[("a", 5)], [("a", 6), ("b", 7)]] :
          List (List (String × Nat))).map specValue) :=
  value_helpers_single_multi_rule ⟨.dictClass⟩ .fromPool
    ⟨false, 2, [[("a", 5)], [("a", 6), ("b", 7)]]⟩ rfl rfl rfl

/-! ## Claim C10 -/

/-- Claim C10: `fetch_value`, `fetch_values` and `yield_values` create
their local cursor with the client default cursor class — not the
configured `db_cursor_class` that `execute`, `fetch_one`, `fetch_all`,
`fetch_n`, `yield_rows` and `yield_objects` request — so a multi-column
result from these value helpers is a positional row whatever the
configured row shape is. -/
theorem value_helpers_default_cursor_class (cfg : DbConfig)
    (src : CursorSource) (env : StmtEnv) (n : Nat) (r : List (String × Nat))
    (rest : List (List (String × Nat)))
    (hsrc : localSrc src = true) (hrows : env.rows = r :: rest)
    (hexec : env.execFails = false) (hcz : env.count ≠ 0)
    (hlen : 1 < r.length) :
    (fetch_value cfg src env).localClassUsed = some .defaultClass ∧
    (fetch_values cfg src env).localClassUsed = some .defaultClass ∧
    (yield_values cfg src env).localClassUsed = some .defaultClass ∧
    (execute cfg src env).localClassUsed = some cfg.db_cursor_class ∧
    (fetch_one cfg src env).localClassUsed = some cfg.db_cursor_class ∧
    (fetch_all cfg src env).localClassUsed = some cfg.db_cursor_class ∧
    (fetch_n cfg src env n).localClassUsed = some cfg.db_cursor_class ∧
    (yield_rows cfg src env).localClassUsed = some cfg.db_cursor_class ∧
    (yield_objects cfg src env).localClassUsed = some cfg.db_cursor_class ∧
    (fetch_value cfg src env).result =
      .ok (some (.whole (.positional (r.map (fun p => p.2))))) := by
  have hu : usedClass CursorClass.defaultClass src = .defaultClass :=
    usedClass_local hsrc
  refine ⟨localClassReq_local hsrc, localClassReq_local hsrc,
    localClassReq_local hsrc, localClassReq_local hsrc,
    localClassReq_local hsrc, localClassReq_local hsrc,
    localClassReq_local hsrc, localClassReq_local hsrc,
    localClassReq_local hsrc, ?_⟩
  show (if env.execFails then (.error () : Except Unit (Option Value))
    else if env.count = 0 then .ok none
    else match env.rows with
    | [] => .error ()
    | r :: _ =>
      match valueOfRow (shapeRow (usedClass .defaultClass src) r) with
      | .error _ => .error ()
      | .ok v => .ok (some v)) = _
  rw [hexec, if_neg Bool.false_ne_true, if_neg hcz, hrows, hu]
  dsimp only
  rw [valueOfRow_default]
  unfold specValue
  rw [if_neg (by omega)]

/-- Witness for claim C10 at a concrete input: `DictCursor` configured, one
two-column result row. -/
theorem value_helpers_default_cursor_class_witness :
    (fetch_value ⟨.dictClass⟩ .fromPool
        ⟨false, 1, [[("a", 6), ("b", 7)]]⟩).localClassUsed =
      some .defaultClass ∧
    (fetch_values ⟨.dictClass⟩ .fromPool
        ⟨false, 1, [[("a", 6), ("b", 7)]]⟩).localClassUsed =
      some .defaultClass ∧
    (yield_values ⟨.dictClass⟩ .fromPool
        ⟨false, 1, [[("a", 6), ("b", 7)]]⟩).localClassUsed =
      some .defaultClass ∧
    (execute ⟨.dictClass⟩ .fromPool
        ⟨false, 1, [[("a", 6), ("b", 7)]]⟩).localClassUsed =
      some CursorClass.dictClass ∧
    (fetch_one ⟨.dictClass⟩ .fromPool
        ⟨false, 1, [[("a", 6), ("b", 7)]]⟩).localClassUsed =
      some CursorClass.dictClass ∧
    (fetch_all ⟨.dictClass⟩ .fromPool
        ⟨false, 1, [[("a", 6), ("b", 7)]]⟩).localClassUsed =
      some CursorClass.dictClass ∧
    (fetch_n ⟨.dictClass⟩ .fromPool
        ⟨false, 1, [[("a", 6), ("b", 7)]]⟩ 4).localClassUsed =
      some CursorClass.dictClass ∧
    (yield_rows ⟨.dictClass⟩ .fromPool
        ⟨false, 1, [[("a", 6), ("b", 7)]]⟩).localClassUsed =
      some CursorClass.dictClass ∧
    (yield_objects ⟨.dictClass⟩ .fromPool
        ⟨false, 1, [[("a", 6), ("b", 7)]]⟩).localClassUsed =
      some CursorClass.dictClass ∧
    (fetch_value ⟨.dictClass⟩ .fromPool
        ⟨false, 1, [[("a", 6), ("b", 7)]]⟩).result =
      .ok (some (.whole (.positional ([("a", 6), ("b", 7)].map
        (fun p => p.2))))) :=
  value_helpers_default_cursor_class ⟨.dictClass⟩ .fromPool
    ⟨false, 1, [[("a", 6), ("b", 7)]]⟩ 4 [("a", 6), ("b", 7)] []
    rfl rfl rfl (by simp) (by simp)


/-! ## Claim C8 -/

theorem lookupStr_convEntries (k : String) :
    ∀ d : List (String × Val),
      lookupStr k (convEntries d) = (lookupStr k d).map convTop := by
  intro d
  induction d with
  | nil => rfl
  | cons p rest ih =>
    obtain ⟨a, v⟩ := p
    simp only [convEntries, lookupStr]
    by_cases h : a = k
    · rw [if_pos h, if_pos h]
      rfl
    · rw [if_neg h, if_neg h]
      exact ih

theorem convElems_eq_map : ∀ l : List Val, convElems l = l.map convElem := by
  intro l
  induction l with
  | nil => rfl
  | cons v rest ih => cases v <;> simp [convElems, convElem, ih]

/-- Claim C8: for every dictionary `d`, the attribute of `dict2obj d` at a
key `k` bound to `v` is: `dict2obj` applied recursively when `v` is a
dictionary; a collection of the same kind with dictionary elements
converted and all other elements passed through unchanged, when `v` is a
recognised collection; and `v` itself otherwise. -/
theorem dict2obj_attribute_rule (d : List (String × Val)) (k : String)
    (v : Val) (h : lookupStr k d = some v) :
    attrLookup k (dict2obj d) = some (specConv v) := by
  show lookupStr k (convEntries d) = _
  rw [lookupStr_convEntries, h]
  cases v with
  | atom n => rfl
  | vdict es => rfl
  | vobj es => rfl
  | vcoll kind vs =>
    show some (Val.vcoll kind (convElems vs)) = _
    rw [convElems_eq_map]
    have he : (fun sj => match sj with
        | Val.vdict es2 => dict2obj es2
        | x => x) = convElem := by
      funext x
      cases x <;> rfl
    show _ = some (Val.vcoll kind (vs.map (fun sj =>
      match sj with
      | Val.vdict es2 => dict2obj es2
      | x => x)))
    rw [he]

/-- Witness for claim C8 at a concrete input: a dictionary whose value is a
list holding one nested dictionary and one scalar. -/
theorem dict2obj_attribute_rule_witness :
    attrLookup "a" (dict2obj
        [("a", Val.vcoll .listKind [Val.vdict [("b", Val.atom 1)], Val.atom 2])]) =
      some (specConv
        (Val.vcoll .listKind [Val.vdict [("b", Val.atom 1)], Val.atom 2])) :=
  dict2obj_attribute_rule
    [("a", Val.vcoll .listKind [Val.vdict [("b", Val.atom 1)], Val.atom 2])]
    "a" (Val.vcoll .listKind [Val.vdict [("b", Val.atom 1)], Val.atom 2]) rfl



theorem sweep_err_inv {env : Env} {l : List (Nat × Int)} {st st' : PoolState}
    {e : DbError} (hinv : poolInv st) (hrun : sweep env l st = .error (e, st')) :
    poolInv st' := by
  induction l generalizing st with
  | nil => exact absurd hrun (by simp [sweep])
  | cons p rest ih =>
    obtain ⟨th2, t2⟩ := p
    rw [sweep_cons] at hrun
    cases hse : sweepEntry env st th2 t2 with
    | error e2 =>
      obtain ⟨e1, st2⟩ := e2
      rw [hse] at hrun
      cases hrun
      rw [sweepEntry_err_state hse]
      exact hinv
    | ok st2 =>
      rw [hse] at hrun
      refine ih ?_ hrun
      rcases sweepEntry_ok_cases hse with h2 | ⟨c, _, h2⟩
      · exact h2 ▸ hinv
      · subst h2
        intro k
        show (alLookup k (alErase th2 st.pool)).isSome =
          (alLookup k (alErase th2 st.activity)).isSome
        rw [alLookup_alErase, alLookup_alErase]
        by_cases hk : k = th2
        · rw [if_pos hk, if_pos hk]
          rfl
        · rw [if_neg hk, if_neg hk]
          exact hinv k

theorem pingLoop_err_inv (env : Env) (ct : Nat) (fresh : List Nat) :
    ∀ conn st st' e, poolInv st → (alLookup ct st.pool).isSome = true →
      pingLoop env ct fresh conn st = .error (e, st') → poolInv st' := by
  induction fresh with
  | nil =>
    intro conn st st' e hinv _ h
    unfold pingLoop at h
    by_cases hp : conn ∈ env.pingOk
    · rw [if_pos hp] at h
      exact absurd h (by simp)
    · rw [if_neg hp] at h
      by_cases hc : env.connectNone = true
      · rw [if_pos hc] at h
        cases h
        exact hinv
      · rw [if_neg hc] at h
        dsimp only at h
        cases h
        exact hinv
  | cons c rest ih =>
    intro conn st st' e hinv hsome h
    unfold pingLoop at h
    by_cases hp : conn ∈ env.pingOk
    · rw [if_pos hp] at h
      exact absurd h (by simp)
    · rw [if_neg hp] at h
      by_cases hc : env.connectNone = true
      · rw [if_pos hc] at h
        cases h
        exact hinv
      · rw [if_neg hc] at h
        dsimp only at h
        refine ih c _ _ _ ?_ ?_ h
        · intro k
          show (alLookup k (alUpdate ct c st.pool)).isSome = _
          rw [alLookup_alUpdate]
          by_cases hk : k = ct
          · rw [if_pos hk, hk, ← hinv ct]
            simp [hsome]
          · rw [if_neg hk]
            exact hinv k
        · show (alLookup ct (alUpdate ct c st.pool)).isSome = true
          rw [alLookup_alUpdate, if_pos rfl]
          rfl

theorem get_connection_err_inv {env : Env} {s : PoolState} {e : DbError}
    {s' : PoolState} (hinv : poolInv s)
    (h : get_connection env s = .err e s') : poolInv s' := by
  unfold get_connection at h
  by_cases hl : s.lockHeld
  · rw [if_pos hl] at h
    exact absurd h (by simp)
  · rw [if_neg hl] at h
    cases hs : sweep env s.activity { s with lockHeld := true } with
    | error e2 =>
      obtain ⟨e1, st'⟩ := e2
      rw [hs] at h
      dsimp only at h
      rw [GCResult.err.injEq] at h
      obtain ⟨h1, h2⟩ := h
      subst h2
      exact sweep_err_inv (show poolInv { s with lockHeld := true } from hinv) hs
    | ok st1 =>
      rw [hs] at h
      dsimp only at h
      have hinv1 : poolInv st1 :=
        sweep_ok_inv (show poolInv { s with lockHeld := true } from hinv) hs
      cases hlk : alLookup env.currentThread st1.pool with
      | some conn0 =>
        rw [hlk] at h
        dsimp only at h
        cases hpl : pingLoop env env.currentThread env.freshConns conn0 st1 with
        | error e2 =>
          obtain ⟨e1, st'⟩ := e2
          rw [hpl] at h
          dsimp only at h
          rw [GCResult.err.injEq] at h
          obtain ⟨h1, h2⟩ := h
          subst h2
          exact pingLoop_err_inv env env.currentThread env.freshConns conn0 st1
            st' e1 hinv1 (by simp [hlk]) hpl
        | ok pr =>
          obtain ⟨st2, conn'⟩ := pr
          rw [hpl] at h
          exact absurd h (by simp)
      | none =>
        rw [hlk] at h
        dsimp only at h
        by_cases hc : env.connectNone = true
        · rw [if_pos hc] at h
          rw [GCResult.err.injEq] at h
          obtain ⟨h1, h2⟩ := h
          subst h2
          exact hinv1
        · rw [if_neg hc] at h
          cases hf : env.freshConns with
          | nil =>
            rw [hf] at h
            dsimp only at h
            rw [GCResult.err.injEq] at h
            obtain ⟨h1, h2⟩ := h
            subst h2
            exact hinv1
          | cons c rest =>
            rw [hf] at h
            exact absurd h (by simp)

theorem closeList_err_frame (env : Env) (l : List (Nat × Nat)) :
    ∀ st st' e, closeList env l st = .error (e, st') →
      st'.pool = st.pool ∧ st'.activity = st.activity := by
  induction l with
  | nil =>
    intro st st' e h
    exact absurd h (by simp [closeList])
  | cons p rest ih =>
    intro st st' e h
    obtain ⟨t, c⟩ := p
    unfold closeList at h
    by_cases hc : c ∈ env.closeFails
    · rw [if_pos hc] at h
      cases h
      exact ⟨rfl, rfl⟩
    · rw [if_neg hc] at h
      have h2 := ih _ _ _ h
      exact h2

/-! ## Claim C1 -/

/-- Claim C1: on a completing `get_connection` call, the eviction sweep —
which runs before the caller's connection is resolved or created — closes
the connection of every pooled entry whose owning thread is dead or whose
last-activity timestamp is older than `now` minus the configured timeout,
and removes the entry from both maps; the closed connection stays recorded
as closed in the final state, and a removed thread other than the caller
stays absent from both maps in the final state. -/
theorem get_connection_evicts_dead_and_idle (env : Env) (s s' : PoolState)
    (conn th : Nat) (t : Int) (c : Nat)
    (hnd : (alKeys s.activity).Nodup)
    (hmem : (th, t) ∈ s.activity)
    (hcond : th ∉ env.alive ∨ t < env.now - env.timeout)
    (hc : alLookup th s.pool = some c)
    (hrun : get_connection env s = .ok s' conn) :
    ∃ st1, sweep env s.activity { s with lockHeld := true } = .ok st1 ∧
      alLookup th st1.pool = none ∧ alLookup th st1.activity = none ∧
      c ∈ st1.closed ∧ c ∈ s'.closed ∧
      (th ≠ env.currentThread →
        alLookup th s'.pool = none ∧ alLookup th s'.activity = none) := by
  rcases get_connection_ok_destruct hrun with
    ⟨_, _, _, st1, hsw, hact, hcl, hoth, _⟩
  rcases sweep_evicts hmem hnd hcond
    (show alLookup th ({ s with lockHeld := true } : PoolState).pool = some c
      from hc) hsw
    with ⟨hp1, ha1, hc1⟩
  refine ⟨st1, hsw, hp1, ha1, hc1, by rw [hcl]; exact hc1, ?_⟩
  intro hne
  constructor
  · rw [hoth th hne]
    exact hp1
  · rw [hact, alLookup_alUpdate, if_neg hne]
    exact ha1

/-- Witness for claim C1 at a concrete input: thread 5 is dead and owns
connection 50; thread 1 calls `get_connection` and keeps its own fresh
connection 10. -/
theorem get_connection_evicts_dead_and_idle_witness :
    ∃ st1, sweep ⟨1, 1000, 600, [1], [10], [], false, []⟩
        ([(5, (0 : Int)), (1, 990)])
        { pool := [(5, 50), (1, 10)], activity := [(5, 0), (1, 990)],
          closed := [], lockHeld := true } = .ok st1 ∧
      alLookup 5 st1.pool = none ∧ alLookup 5 st1.activity = none ∧
      50 ∈ st1.closed ∧
      50 ∈ ({ pool := [(1, 10)], activity := [(1, 1000)],
              closed := [50], lockHeld := false } : PoolState).closed ∧
      (5 ≠ 1 →
        alLookup 5
          ({ pool := [(1, 10)], activity := [(1, 1000)],
             closed := [50], lockHeld := false } : PoolState).pool = none ∧
        alLookup 5
          ({ pool := [(1, 10)], activity := [(1, 1000)],
             closed := [50], lockHeld := false } : PoolState).activity = none) :=
  get_connection_evicts_dead_and_idle
    ⟨1, 1000, 600, [1], [10], [], false, []⟩
    { pool := [(5, 50), (1, 10)], activity := [(5, 0), (1, 990)],
      closed := [], lockHeld := false }
    { pool := [(1, 10)], activity := [(1, 1000)],
      closed := [50], lockHeld := false }
    10 5 0 50 (by decide) (by decide) (Or.inl (by decide)) (by decide)
    (by decide)

/-! ## Claim C3 -/

/-- Claim C3: a thread identity has a connection entry exactly when it has
an activity entry, and this invariant is preserved by every completing
`get_connection` call (which evicts from both maps together and installs
into both maps together) and by `close_connections` (which touches neither
map). -/
theorem pool_map_key_invariant (env env2 : Env) (s s' s2 s3 s4 : PoolState)
    (conn : Nat) (e e2 : DbError) (hinv : poolInv s) :
    (get_connection env s = .ok s' conn → poolInv s') ∧
    (get_connection env s = .err e s3 → poolInv s3) ∧
    (close_connections env2 s = .ok s2 → poolInv s2) ∧
    (close_connections env2 s = .error (e2, s4) → poolInv s4) := by
  refine ⟨?_, ?_, ?_, ?_⟩
  · intro h
    rcases get_connection_ok_destruct h with ⟨_, _, _, st1, hsw, _, _, _, hinvd⟩
    exact hinvd (sweep_ok_inv (show poolInv { s with lockHeld := true } from hinv) hsw)
  · intro h
    exact get_connection_err_inv hinv h
  · intro h
    rcases closeList_ok_frame env2 s.pool s s2 h with ⟨h1, h2, _, _⟩
    intro k
    rw [h1, h2]
    exact hinv k
  · intro h
    rcases closeList_err_frame env2 s.pool s s4 e2 h with ⟨h1, h2⟩
    intro k
    rw [h1, h2]
    exact hinv k

/-- Witness for claim C3 at a concrete input. -/
theorem pool_map_key_invariant_witness :
    (get_connection ⟨1, 150, 600, [1], [10], [], false, []⟩
        { pool := [(1, 10)], activity := [(1, 100)],
          closed := [], lockHeld := false } =
      .ok { pool := [(1, 10)], activity := [(1, 150)],
            closed := [], lockHeld := false } 10 →
      poolInv { pool := [(1, 10)], activity := [(1, 150)],
                closed := [], lockHeld := false }) ∧
    (get_connection ⟨1, 150, 600, [1], [10], [], false, []⟩
        { pool := [(1, 10)], activity := [(1, 100)],
          closed := [], lockHeld := false } =
      .err .keyError { pool := [(1, 10)], activity := [(1, 100)],
                       closed := [], lockHeld := true } →
      poolInv { pool := [(1, 10)], activity := [(1, 100)],
                closed := [], lockHeld := true }) ∧
    (close_connections ⟨0, 0, 0, [], [], [], false, []⟩
        { pool := [(1, 10)], activity := [(1, 100)],
          closed := [], lockHeld := false } =
      .ok { pool := [(1, 10)], activity := [(1, 100)],
            closed := [10], lockHeld := false } →
      poolInv { pool := [(1, 10)], activity := [(1, 100)],
                closed := [10], lockHeld := false }) ∧
    (close_connections ⟨0, 0, 0, [], [], [], false, []⟩
        { pool := [(1, 10)], activity := [(1, 100)],
          closed := [], lockHeld := false } =
      .error (.keyError, { pool := [(1, 10)], activity := [(1, 100)],
                           closed := [], lockHeld := false }) →
      poolInv { pool := [(1, 10)], activity := [(1, 100)],
                closed := [], lockHeld := false }) :=
  pool_map_key_invariant ⟨1, 150, 600, [1], [10], [], false, []⟩
    ⟨0, 0, 0, [], [], [], false, []⟩
    { pool := [(1, 10)], activity := [(1, 100)],
      closed := [], lockHeld := false }
    { pool := [(1, 10)], activity := [(1, 150)],
      closed := [], lockHeld := false }
    { pool := [(1, 10)], activity := [(1, 100)],
      closed := [10], lockHeld := false }
    { pool := [(1, 10)], activity := [(1, 100)],
      closed := [], lockHeld := true }
    { pool := [(1, 10)], activity := [(1, 100)],
      closed := [], lockHeld := false }
    10 .keyError .keyError (by decide)

/-! ## Claim C4 -/

/-- Claim C4: a second `get_connection` call from the same live thread,
with the first call's connection answering its ping (no intervening
failure), no `close()` failure in the second sweep, and less than the idle
timeout elapsed since the first call, returns the same connection. -/
theorem get_connection_idempotent (env1 env2 : Env) (s s1 : PoolState)
    (c1 : Nat)
    (hinv : poolInv s) (hnd : (alKeys s.activity).Nodup)
    (h1 : get_connection env1 s = .ok s1 c1)
    (hct : env2.currentThread = env1.currentThread)
    (halive : env1.currentThread ∈ env2.alive)
    (hping : c1 ∈ env2.pingOk)
    (hclose : env2.closeFails = [])
    (htime : ¬ env1.now < env2.now - env2.timeout) :
    ∃ s2, get_connection env2 s1 = .ok s2 c1 := by
  rcases get_connection_ok_destruct h1 with
    ⟨_, hlock1, hpool1, st1, hsw, hact1, _, _, hinvd⟩
  have hinv1 : poolInv s1 :=
    hinvd (sweep_ok_inv (show poolInv { s with lockHeld := true } from hinv) hsw)
  have hnd1 : (alKeys s1.activity).Nodup := by
    rw [hact1]
    exact alKeys_alUpdate_nodup _ _ _
      (sweep_ok_activity_nodup
        (show (alKeys ({ s with lockHeld := true } : PoolState).activity).Nodup
          from hnd) hsw)
  have hactLookup : alLookup env1.currentThread s1.activity = some env1.now := by
    rw [hact1, alLookup_alUpdate, if_pos rfl]
  have hpoolAll : ∀ th t, (th, t) ∈ s1.activity →
      (alLookup th ({ s1 with lockHeld := true } : PoolState).pool).isSome
        = true := by
    intro th t hm
    have hmk : th ∈ alKeys s1.activity := List.mem_map.2 ⟨(th, t), hm, rfl⟩
    have h2 : (alLookup th s1.activity).isSome = true :=
      (alLookup_isSome_iff_mem_alKeys th s1.activity).2 hmk
    show (alLookup th s1.pool).isSome = true
    rw [hinv1 th]
    exact h2
  rcases sweep_ok_total s1.activity { s1 with lockHeld := true }
    hclose hnd1 hpoolAll with ⟨st1', hsw2⟩
  have hkeep : ∀ t, (env2.currentThread, t) ∈ s1.activity →
      ¬ evictable env2 env2.currentThread t := by
    intro t hm
    have hl2 := alLookup_of_mem hnd1 hm
    rw [hct] at hl2
    have ht : t = env1.now := Option.some.inj (hl2.symm.trans hactLookup)
    subst ht
    unfold evictable
    push_neg
    rw [hct]
    exact ⟨halive, not_lt.1 htime⟩
  have hpres := sweep_preserves hkeep
    (by show alLookup env2.currentThread
          ({ s1 with lockHeld := true } : PoolState).pool = some c1
        rw [hct]
        exact hpool1)
    (by show alLookup env2.currentThread
          ({ s1 with lockHeld := true } : PoolState).activity = some env1.now
        rw [hct]
        exact hactLookup)
    hsw2
  refine ⟨{ st1' with
    activity := alUpdate env2.currentThread env2.now st1'.activity,
    lockHeld := false }, ?_⟩
  unfold get_connection
  rw [if_neg (by rw [hlock1]; simp)]
  rw [hsw2]
  dsimp only
  rw [hpres.1]
  dsimp only
  rw [pingLoop_ok_of_pingOk env2.freshConns hping]

/-- Witness for claim C4 at a concrete input: thread 1 creates connection 7
at time 100, then calls again at time 200 while the connection still
pings. -/
theorem get_connection_idempotent_witness :
    ∃ s2, get_connection ⟨1, 200, 600, [1], [7], [], false, []⟩
      { pool := [(1, 7)], activity := [(1, 100)],
        closed := [], lockHeld := false } = .ok s2 7 :=
  get_connection_idempotent ⟨1, 100, 600, [1], [], [7], false, []⟩
    ⟨1, 200, 600, [1], [7], [], false, []⟩
    { pool := [], activity := [], closed := [], lockHeld := false }
    { pool := [(1, 7)], activity := [(1, 100)],
      closed := [], lockHeld := false }
    7 (by decide) (by decide) (by decide) rfl (by decide) (by decide) rfl
    (by decide)

/-! ## Claim C7 -/

/-- Claim C7: `close_connections` closes every pooled connection without
consulting the liveness of the owning thread (its behaviour is invariant
under changing which threads are alive), and removes nothing from the
connection map or the activity map. -/
theorem close_connections_unconditional (env : Env) (s s' : PoolState)
    (h : close_connections env s = .ok s') :
    s'.pool = s.pool ∧ s'.activity = s.activity ∧
    (∀ p ∈ s.pool, p.2 ∈ s'.closed) ∧
    (∀ alive2, close_connections { env with alive := alive2 } s =
      close_connections env s) := by
  rcases closeList_ok_frame env s.pool s s' h with ⟨h1, h2, _, _⟩
  refine ⟨h1, h2, ?_, ?_⟩
  · intro p hp
    exact closeList_ok_closes env s.pool s s' h p hp
  · intro alive2
    show closeList { env with alive := alive2 } s.pool s = closeList env s.pool s
    exact closeList_closeFails_congr { env with alive := alive2 } env rfl s.pool s

/-- Witness for claim C7 at a concrete input: a pool of two connections,
both closed, maps untouched. -/
theorem close_connections_unconditional_witness :
    ({ pool := [(1, 10), (2, 20)], activity := [(1, 5), (2, 6)],
       closed := [20, 10], lockHeld := false } : PoolState).pool =
      ({ pool := [(1, 10), (2, 20)], activity := [(1, 5), (2, 6)],
         closed := [], lockHeld := false } : PoolState).pool ∧
    ({ pool := [(1, 10), (2, 20)], activity := [(1, 5), (2, 6)],
       closed := [20, 10], lockHeld := false } : PoolState).activity =
      ({ pool := [(1, 10), (2, 20)], activity := [(1, 5), (2, 6)],
         closed := [], lockHeld := false } : PoolState).activity ∧
    (∀ p ∈ ({ pool := [(1, 10), (2, 20)], activity := [(1, 5), (2, 6)],
               closed := [], lockHeld := false } : PoolState).pool,
      p.2 ∈ ({ pool := [(1, 10), (2, 20)], activity := [(1, 5), (2, 6)],
               closed := [20, 10], lockHeld := false } : PoolState).closed) ∧
    (∀ alive2, close_connections
        { currentThread := 0, now := 0, timeout := 0, alive := alive2,
          pingOk := [], freshConns := [], connectNone := false,
          closeFails := [] }
        { pool := [(1, 10), (2, 20)], activity := [(1, 5), (2, 6)],
          closed := [], lockHeld := false } =
      close_connections ⟨0, 0, 0, [], [], [], false, []⟩
        { pool := [(1, 10), (2, 20)], activity := [(1, 5), (2, 6)],
          closed := [], lockHeld := false }) :=
  close_connections_unconditional ⟨0, 0, 0, [], [], [], false, []⟩
    { pool := [(1, 10), (2, 20)], activity := [(1, 5), (2, 6)],
      closed := [], lockHeld := false }
    { pool := [(1, 10), (2, 20)], activity := [(1, 5), (2, 6)],
      closed := [20, 10], lockHeld := false }
    (by decide)

/-! ## Claim C9 -/

/-- Claim C9: any error escaping `get_connection` (the lock release sits
after the `try` block, which ends in `finally: pass`) leaves the pool lock
held, after which every later `get_connection` call from any thread blocks
on the lock forever. -/
theorem get_connection_error_keeps_lock (env : Env) (s : PoolState)
    (e : DbError) (s' : PoolState)
    (h : get_connection env s = .err e s') :
    s'.lockHeld = true ∧ ∀ env2, get_connection env2 s' = .blocked := by
  have hl := get_connection_err_lock h
  exact ⟨hl, fun env2 => get_connection_blocked_of_lock hl⟩

/-- Witness for claim C9 at a concrete input: closing dead thread 5's
connection raises, the error escapes with the lock held, and thread 2's
later call blocks. -/
theorem get_connection_error_keeps_lock_witness :
    ({ pool := [(5, 50)], activity := [(5, 0)], closed := [],
       lockHeld := true } : PoolState).lockHeld = true ∧
    get_connection ⟨2, 0, 0, [], [], [], false, []⟩
      { pool := [(5, 50)], activity := [(5, 0)], closed := [],
        lockHeld := true } = .blocked :=
  ⟨(get_connection_error_keeps_lock ⟨1, 100, 600, [], [], [], false, [50]⟩
      { pool := [(5, 50)], activity := [(5, 0)], closed := [],
        lockHeld := false }
      (.closeError 50)
      { pool := [(5, 50)], activity := [(5, 0)], closed := [],
        lockHeld := true }
      (by decide)).1,
   (get_connection_error_keeps_lock ⟨1, 100, 600, [], [], [], false, [50]⟩
      { pool := [(5, 50)], activity := [(5, 0)], closed := [],
        lockHeld := false }
      (.closeError 50)
      { pool := [(5, 50)], activity := [(5, 0)], closed := [],
        lockHeld := true }
      (by decide)).2 ⟨2, 0, 0, [], [], [], false, []⟩⟩

end MySQLdbWrapper
